import Mathlib

/-!
# net: SPDY/HTTP header translation and the disk-cache test harness

A shallow embedding of `net/spdy/spdy_http_utils.cc` and of
`net/disk_cache/disk_cache_test_base.cc`, followed by the properties proved
about them.

* `std::string` is a list of `char` values (`Str`); NUL bytes are ordinary
  elements.
* `SpdyHeaderBlock` (`std::map<std::string, std::string>`) is the list of its
  (key, value) pairs in iteration order; `find`, `assign` (`operator[] =`,
  which inserts a new key at its place in key order) and `erase` follow the
  `std::map` operations.
* Loops that the source bounds only by their exit test carry fuel; that the
  fuel given is enough is proved.
* The test harness is a record of its member variables together with the
  trace of calls it has issued to its collaborators; the answers of the
  collaborators come from an environment that may depend on the whole trace.
-/

namespace net

/-! ## Strings and the header block -/

/-- A `std::string`: a sequence of `char` values, NUL included. -/
abbrev Str := List Char

/-- The NUL byte, written `'\0'` in the source. -/
def NUL : Char := Char.ofNat 0

/-- `std::string::find(ch, pos)`: the first index `>= pos` holding `ch`;
`none` stands for `npos`. -/
def strFind (s : Str) (ch : Char) (pos : Nat) : Option Nat :=
  if (s.drop pos).indexOf ch < (s.drop pos).length then
    some (pos + (s.drop pos).indexOf ch)
  else none

/-- `std::string::substr(pos, n)`. -/
def substr (s : Str) (pos n : Nat) : Str := (s.drop pos).take n

/-- `std::string::substr(pos)`. -/
def substrFrom (s : Str) (pos : Nat) : Str := s.drop pos

/-- `ToLowerASCII` on one `char`: only `'A'..'Z'` change. -/
def ToLowerASCII (c : Char) : Char :=
  if 'A' ≤ c ∧ c ≤ 'Z' then Char.ofNat (c.toNat + ('a'.toNat - 'A'.toNat)) else c

/-- `StringToLowerASCII`: `ToLowerASCII` on every `char`. -/
def StringToLowerASCII (s : Str) : Str := s.map ToLowerASCII

/-- `SpdyHeaderBlock`, a `std::map<std::string, std::string>`: the list of its
(key, value) pairs in iteration order. -/
abbrev SpdyHeaderBlock := List (Str × Str)

namespace SpdyHeaderBlock

/-- `std::map::find(key)`: the mapped value, `none` for `end()`. -/
def find : SpdyHeaderBlock → Str → Option Str
  | [], _ => none
  | (k, v) :: rest, key => if k = key then some v else find rest key

/-- `(*headers)[key] = val`: replaces the value of an existing key, otherwise
inserts the pair at its place in key order. -/
def assign : SpdyHeaderBlock → Str → Str → SpdyHeaderBlock
  | [], key, val => [(key, val)]
  | (k, v) :: rest, key, val =>
    if key < k then (key, val) :: (k, v) :: rest
    else if key = k then (k, val) :: rest
    else (k, v) :: assign rest key val

/-- `std::map::erase(key)`: removes every element whose key is `key`. -/
def erase (m : SpdyHeaderBlock) (key : Str) : SpdyHeaderBlock :=
  m.filter (fun kv => decide (kv.1 ≠ key))

/-- The keys of the block, in iteration order. -/
def keys (m : SpdyHeaderBlock) : List Str := m.map Prod.fst

end SpdyHeaderBlock

/-! ## `SpdyHeadersToHttpResponse` -/

/-- The fields of `HttpResponseInfo` that `SpdyHeadersToHttpResponse` writes.
`headers` holds the raw string given to `new HttpResponseHeaders(raw_headers)`,
`none` while the pointer is unset. -/
structure HttpResponseInfo where
  response_time : Nat
  headers : Option Str
  was_fetched_via_spdy : Bool
deriving DecidableEq, Repr

/-- The `do { ... } while (end != value.npos)` loop of
`SpdyHeadersToHttpResponse` for one map element `(first, value)`, started at
index `start` with `raw_headers` so far. One unit of fuel is spent per
iteration; `none` means the fuel ran out. -/
def valueLoop (protocol_version : Int) (first value : Str) :
    Nat → Nat → Str → Option Str
  | 0, _, _ => none
  | fuel + 1, start, raw_headers =>
    let end_ := strFind value NUL start
    let tval : Str :=
      match end_ with
      | some e => substr value start (e - start)
      | none => substrFrom value start
    let raw1 : Str :=
      if protocol_version ≥ 3 ∧ first.getD 0 NUL = ':' then
        raw_headers ++ substrFrom first 1
      else
        raw_headers ++ first
    let raw2 : Str := ((raw1 ++ [':']) ++ tval) ++ [NUL]
    match end_ with
    | some e => valueLoop protocol_version first value fuel (e + 1) raw2
    | none => some raw2

/-- The `for (it = headers.begin(); it != headers.end(); ++it)` loop of
`SpdyHeadersToHttpResponse`. The inner loop gets `value.size() + 1` units of
fuel. -/
def responseHeaderLoop (protocol_version : Int) : SpdyHeaderBlock → Str → Option Str
  | [], raw_headers => some raw_headers
  | (first, second) :: rest, raw_headers =>
    match valueLoop protocol_version first second (second.length + 1) 0 raw_headers with
    | none => none
    | some raw => responseHeaderLoop protocol_version rest raw

/-- `SpdyHeadersToHttpResponse(headers, protocol_version, response)`. `now` is
the value of `base::Time::Now()`. The result is the returned `bool` and the
response object after the call; `none` only if an inner loop ran out of fuel. -/
def SpdyHeadersToHttpResponse (now : Nat) (headers : SpdyHeaderBlock)
    (protocol_version : Int) (response : HttpResponseInfo) :
    Option (Bool × HttpResponseInfo) :=
  let status_key : Str := if protocol_version ≥ 3 then ":status".toList else "status".toList
  let version_key : Str := if protocol_version ≥ 3 then ":version".toList else "version".toList
  match SpdyHeaderBlock.find headers status_key with
  | none => some (false, response)
  | some status =>
    match SpdyHeaderBlock.find headers version_key with
    | none => some (false, response)
    | some version =>
      let response1 := { response with response_time := now }
      let raw_headers : Str := ((version ++ [' ']) ++ status) ++ [NUL]
      match responseHeaderLoop protocol_version headers raw_headers with
      | none => none
      | some raw =>
        some (true, { response1 with headers := some raw, was_fetched_via_spdy := true })

/-- A response object nothing has been written to. -/
def blankResponse : HttpResponseInfo :=
  { response_time := 0, headers := none, was_fetched_via_spdy := false }

/-- The smallest SPDY/3 response block: `:status` and `:version`. -/
def minimalSpdy3Block : SpdyHeaderBlock :=
  [(":status".toList, "200".toList), (":version".toList, "HTTP/1.1".toList)]

/-- A SPDY/2 response block with a header whose name starts with a colon:
`:x`, `status` and `version`, in key order. -/
def colonSpdy2Block : SpdyHeaderBlock :=
  [(":x".toList, "1".toList), ("status".toList, "200".toList),
   ("version".toList, "HTTP/1.1".toList)]

/-! ## `CreateSpdyHeadersFromHttpRequest` -/

/-- `HttpRequestHeaders`: the header lines in the order its `Iterator` yields
them, each a (name, value) pair. -/
abbrev HttpRequestHeaders := List (Str × Str)

/-- The functions on `GURL` used by this file, which live outside it:
`GURL::scheme()`, `GetHostAndOptionalPort`, `HttpUtil::PathForRequest`,
`HttpUtil::SpecForRequest` and the constructor `GURL(std::string)`. -/
structure UrlFns (GURL : Type) where
  scheme : GURL → Str
  GetHostAndOptionalPort : GURL → Str
  PathForRequest : GURL → Str
  SpecForRequest : GURL → Str
  fromString : Str → GURL

/-- The fields of `HttpRequestInfo` read by `CreateSpdyHeadersFromHttpRequest`. -/
structure HttpRequestInfo (GURL : Type) where
  url : GURL
  method : Str

/-- The string constant `kHttpProtocolVersion`. -/
def kHttpProtocolVersion : Str := "HTTP/1.1".toList

/-- The `while (it.GetNext())` loop of `CreateSpdyHeadersFromHttpRequest`. In
the `else` branch the key is present, so `(*headers)[name]` reads its value. -/
def requestHeaderLoop : HttpRequestHeaders → SpdyHeaderBlock → SpdyHeaderBlock
  | [], headers => headers
  | (it_name, it_value) :: rest, headers =>
    let name := StringToLowerASCII it_name
    if name = "connection".toList ∨ name = "proxy-connection".toList ∨
        name = "transfer-encoding".toList then
      requestHeaderLoop rest headers
    else
      match SpdyHeaderBlock.find headers name with
      | none => requestHeaderLoop rest (SpdyHeaderBlock.assign headers name it_value)
      | some old =>
        let new_value : Str := (old ++ [NUL]) ++ it_value
        requestHeaderLoop rest (SpdyHeaderBlock.assign headers name new_value)

/-- `CreateSpdyHeadersFromHttpRequest(info, request_headers, headers,
protocol_version, direct)`; the result is `*headers` after the call. -/
def CreateSpdyHeadersFromHttpRequest {GURL : Type} (U : UrlFns GURL)
    (info : HttpRequestInfo GURL) (request_headers : HttpRequestHeaders)
    (headers : SpdyHeaderBlock) (protocol_version : Int) (direct : Bool) :
    SpdyHeaderBlock :=
  let h0 := requestHeaderLoop request_headers headers
  if protocol_version < 3 then
    let h1 := SpdyHeaderBlock.assign h0 "version".toList kHttpProtocolVersion
    let h2 := SpdyHeaderBlock.assign h1 "method".toList info.method
    let h3 := SpdyHeaderBlock.assign h2 "host".toList (U.GetHostAndOptionalPort info.url)
    let h4 := SpdyHeaderBlock.assign h3 "scheme".toList (U.scheme info.url)
    if direct then
      SpdyHeaderBlock.assign h4 "url".toList (U.PathForRequest info.url)
    else
      SpdyHeaderBlock.assign h4 "url".toList (U.SpecForRequest info.url)
  else
    let h1 := SpdyHeaderBlock.assign h0 ":version".toList kHttpProtocolVersion
    let h2 := SpdyHeaderBlock.assign h1 ":method".toList info.method
    let h3 := SpdyHeaderBlock.assign h2 ":host".toList (U.GetHostAndOptionalPort info.url)
    let h4 := SpdyHeaderBlock.assign h3 ":scheme".toList (U.scheme info.url)
    let h5 := SpdyHeaderBlock.assign h4 ":path".toList (U.PathForRequest info.url)
    SpdyHeaderBlock.erase h5 "host".toList

/-- URL helpers for worked examples: a `GURL` is just its string, and every
helper returns it unchanged. -/
def stringUrlFns : UrlFns Str :=
  { scheme := id, GetHostAndOptionalPort := id, PathForRequest := id, SpecForRequest := id,
    fromString := id }

/-- A request for worked examples: `GET` on the URL `u`. -/
def sampleRequest : HttpRequestInfo Str := { url := "u".toList, method := "GET".toList }

/-- Request headers for worked examples: `Accept` sent twice, in two letter
cases, and a `Connection` header. -/
def sampleRequestHeaders : HttpRequestHeaders :=
  [("Accept".toList, "a".toList), ("Connection".toList, "close".toList),
   ("accept".toList, "b".toList)]

/-! ## `GetUrlFromHeaderBlock` -/

/-- The string from which `GetUrlFromHeaderBlock` builds its `GURL`. -/
def GetUrlFromHeaderBlock_url (headers : SpdyHeaderBlock) (protocol_version : Int)
    (pushed : Bool) : Str :=
  if pushed = true ∧ protocol_version = 2 then
    match SpdyHeaderBlock.find headers "url".toList with
    | some second => second
    | none => []
  else
    let scheme_header : Str := if protocol_version ≥ 3 then ":scheme".toList else "scheme".toList
    let host_header : Str := if protocol_version ≥ 3 then ":host".toList else "host".toList
    let path_header : Str := if protocol_version ≥ 3 then ":path".toList else "url".toList
    let scheme : Str := (SpdyHeaderBlock.find headers scheme_header).getD []
    let host_port : Str := (SpdyHeaderBlock.find headers host_header).getD []
    let path : Str := (SpdyHeaderBlock.find headers path_header).getD []
    if scheme.isEmpty ∨ host_port.isEmpty ∨ path.isEmpty then []
    else ((scheme ++ "://".toList) ++ host_port) ++ path

/-- `GetUrlFromHeaderBlock(headers, protocol_version, pushed)`: `GURL(url)`. -/
def GetUrlFromHeaderBlock {GURL : Type} (U : UrlFns GURL) (headers : SpdyHeaderBlock)
    (protocol_version : Int) (pushed : Bool) : GURL :=
  U.fromString (GetUrlFromHeaderBlock_url headers protocol_version pushed)

/-! ## `ConvertRequestPriorityToSpdyPriority` -/

/-- Modelled from the spec: `enum RequestPriority` of
`net/base/request_priority.h` is missing from the sources; its first value is
`HIGHEST = 0`. -/
def HIGHEST : Int := 0

/-- Modelled from the spec: `enum RequestPriority` is missing from the
sources; `MEDIUM = 1`. -/
def MEDIUM : Int := 1

/-- Modelled from the spec: `enum RequestPriority` is missing from the
sources; `LOW = 2`. -/
def LOW : Int := 2

/-- Modelled from the spec: `enum RequestPriority` is missing from the
sources; `LOWEST = 3`. -/
def LOWEST : Int := 3

/-- Modelled from the spec: `enum RequestPriority` is missing from the
sources; `IDLE = 4`. -/
def IDLE : Int := 4

/-- Modelled from the spec: `enum RequestPriority` is missing from the
sources; `NUM_PRIORITIES = 5` closes the enum. -/
def NUM_PRIORITIES : Int := 5

/-- Modelled from the spec: the constant `SPDY_PRIORITY_LOWEST` of the SPDY
protocol header is missing from the sources; its value is 3. -/
def SPDY_PRIORITY_LOWEST : Int := 3

/-- The conversion of an integer to the return type `SpdyPriority`, an
unsigned 8-bit integer. -/
def toSpdyPriority (x : Int) : Int := x % 2 ^ 8

/-- `ConvertRequestPriorityToSpdyPriority(priority, protocol_version)`. The
`DCHECK(HIGHEST <= priority && priority < NUM_PRIORITIES)` is a debug-build
assertion and computes nothing; the `switch` tests `LOWEST` and `IDLE` in
turn. -/
def ConvertRequestPriorityToSpdyPriority (priority : Int) (protocol_version : Int) : Int :=
  if protocol_version = 2 then
    if priority = LOWEST then toSpdyPriority (SPDY_PRIORITY_LOWEST - 1)
    else if priority = IDLE then toSpdyPriority SPDY_PRIORITY_LOWEST
    else toSpdyPriority priority
  else
    toSpdyPriority priority

/-! ## The disk-cache test harness (`disk_cache_test_base.cc`) -/

/-- `net::OK`. -/
def OK : Int := 0

/-- `base::FilePath`. -/
abbrev FilePath := String

/-- `net::CacheType`. -/
inductive CacheType
  | DISK_CACHE | MEDIA_CACHE | APP_CACHE | MEMORY_CACHE
deriving DecidableEq, Repr

/-- The backend flags the harness passes on: `disk_cache::kNone` and
`disk_cache::kNoRandom`. -/
inductive BackendFlags
  | kNone | kNoRandom
deriving DecidableEq, Repr

/-- The three backend classes the harness can build. -/
inductive Variant
  | MemBackendImpl | SimpleBackendImpl | BackendImpl
deriving DecidableEq, Repr

/-- A `disk_cache::Backend*`: the class of the object and its identity. -/
structure BackendPtr where
  variant : Variant
  id : Nat
deriving DecidableEq, Repr

/-- The calls the harness issues to its collaborators. Objects are named by
the identity they got when they were built. -/
inductive Event
  /-- `DeleteCache(cache_path_)`, through `CleanupCacheDir()`. -/
  | DeleteCache (path : FilePath)
  /-- `cache_thread_.StartWithOptions(...)`. -/
  | ThreadStart
  /-- `cache_thread_.message_loop()`. -/
  | ThreadMessageLoop
  /-- `cache_thread_.Stop()`. -/
  | ThreadStop
  /-- `base::RunLoop().RunUntilIdle()`. -/
  | RunUntilIdle
  /-- `new disk_cache::MemBackendImpl(NULL)`. -/
  | NewMemBackendImpl (id : Nat)
  /-- `disk_cache::SimpleBackendImpl::CreateBackend(cache_path_, size_, type_,
  kNone, runner, NULL, &simple_backend, cb)`: builds and initialises a simple
  backend. -/
  | SimpleCreateBackend (id : Nat) (path : FilePath) (size : Int) (type : CacheType)
      (current_thread : Bool)
  /-- `new disk_cache::BackendImpl(cache_path_, [mask_,] runner, NULL)`; `mask`
  is `none` for the constructor without a mask. -/
  | NewBackendImpl (id : Nat) (path : FilePath) (mask : Option Nat) (current_thread : Bool)
  /-- `SetMaxSize(size)` on a backend. -/
  | SetMaxSize (id : Nat) (size : Int)
  /-- `cache_impl_->SetNewEviction()`. -/
  | SetNewEviction (id : Nat)
  /-- `cache_impl_->SetType(type_)`. -/
  | SetType (id : Nat) (type : CacheType)
  /-- `cache_impl_->SetFlags(flags)`. -/
  | SetFlags (id : Nat) (flags : BackendFlags)
  /-- `Init` of a backend. -/
  | Init (id : Nat)
  /-- `cache_->GetEntryCount()`. -/
  | GetEntryCount (id : Nat)
  /-- `cache_impl_->FlushQueueForTest(cb)`. -/
  | FlushQueueForTest (id : Nat)
  /-- `cache_impl_->ClearRefCountForTest()`. -/
  | ClearRefCountForTest (id : Nat)
  /-- The `delete` of a backend object. -/
  | Delete (id : Nat)
  /-- `CheckCacheIntegrity(cache_path_, new_eviction_, mask_)`. -/
  | CheckCacheIntegrity (path : FilePath) (new_eviction : Bool) (mask : Nat)
  /-- `PlatformTest::TearDown()`. -/
  | PlatformTestTearDown
  /-- `closure.Run()`: the closure is run by the caller, inside the call. -/
  | ClosureRun (closure : Nat)
  /-- `cache_impl_->RunTaskForTest(closure, cb)`: the closure is handed to the
  backend, which posts it to its worker. -/
  | RunTaskForTest (id : Nat) (closure : Nat)
deriving DecidableEq, Repr

/-- The backend class an event builds, if it builds one. -/
def Event.constructs : Event → Option Variant
  | .NewMemBackendImpl _ => some .MemBackendImpl
  | .SimpleCreateBackend _ _ _ _ _ => some .SimpleBackendImpl
  | .NewBackendImpl _ _ _ _ => some .BackendImpl
  | _ => none

/-- Whether the event is an invocation of the Integrity Checker. -/
def Event.isIntegrityCheck : Event → Bool
  | .CheckCacheIntegrity _ _ _ => true
  | _ => false

/-- The answers of the collaborators. Each answer may depend on every call
issued so far, the one being answered last. `intResult` is the value of
`cb.GetResult(rv)` for a call with a completion callback and the returned
count for `GetEntryCount`; `boolResult` is the returned `bool`, and for
`ThreadMessageLoop` whether the returned pointer is non-NULL. -/
structure Env where
  boolResult : List Event → Bool
  intResult : List Event → Int

/-- The member variables of `DiskCacheTestWithCache`, the running state of
`cache_thread_`, and the bookkeeping of the run: the next unused object
identity, the calls issued so far, and the numbers of fatal (`ASSERT_`) and
non-fatal (`EXPECT_`) failures recorded by the test framework. -/
structure DiskCacheTestWithCache where
  cache_path_ : FilePath
  cache_ : Option BackendPtr
  cache_impl_ : Option Nat
  mem_cache_ : Option Nat
  mask_ : Nat
  size_ : Int
  type_ : CacheType
  memory_only_ : Bool
  simple_cache_mode_ : Bool
  force_creation_ : Bool
  new_eviction_ : Bool
  first_cleanup_ : Bool
  integrity_ : Bool
  use_current_thread_ : Bool
  cache_thread_running : Bool
  next_id : Nat
  trace : List Event
  fatal_failures : Nat
  nonfatal_failures : Nat
deriving DecidableEq, Repr

namespace DiskCacheTestWithCache

/-- The harness as its constructor leaves it, for the temporary directory
`path`. -/
def new (path : FilePath) : DiskCacheTestWithCache :=
  { cache_path_ := path, cache_ := none, cache_impl_ := none, mem_cache_ := none,
    mask_ := 0, size_ := 0, type_ := .DISK_CACHE, memory_only_ := false,
    simple_cache_mode_ := false, force_creation_ := false, new_eviction_ := false,
    first_cleanup_ := true, integrity_ := true, use_current_thread_ := false,
    cache_thread_running := false, next_id := 0, trace := [],
    fatal_failures := 0, nonfatal_failures := 0 }

/-- Issue a call: append it to the trace. -/
def call (h : DiskCacheTestWithCache) (e : Event) : DiskCacheTestWithCache :=
  { h with trace := h.trace ++ [e] }

/-- A failed `ASSERT_*`: a fatal failure is recorded (the enclosing function
then returns). -/
def addFatal (h : DiskCacheTestWithCache) : DiskCacheTestWithCache :=
  { h with fatal_failures := h.fatal_failures + 1 }

/-- `EXPECT_TRUE(cond)`: a non-fatal failure is recorded when `cond` is false;
execution goes on either way. -/
def expectTrue (h : DiskCacheTestWithCache) (cond : Bool) : DiskCacheTestWithCache :=
  if cond then h else { h with nonfatal_failures := h.nonfatal_failures + 1 }

/-- `DiskCacheTestWithCache::CreateBackend(flags, thread)`; `thread` is always
`&cache_thread_`. -/
def CreateBackend (env : Env) (flags : BackendFlags) (h : DiskCacheTestWithCache) :
    DiskCacheTestWithCache :=
  let runner_is_current := h.use_current_thread_
  if h.simple_cache_mode_ then
    let id := h.next_id
    let h1 := { h with next_id := id + 1 }.call
      (.SimpleCreateBackend id h.cache_path_ h.size_ h.type_ runner_is_current)
    if env.intResult h1.trace ≠ OK then h1.addFatal
    else { h1 with cache_ := some ⟨.SimpleBackendImpl, id⟩ }
  else
    let id := h.next_id
    let h1 := { h with next_id := id + 1, cache_impl_ := some id }.call
      (.NewBackendImpl id h.cache_path_ (if h.mask_ ≠ 0 then some h.mask_ else none)
        runner_is_current)
    let h2 := { h1 with cache_ := some ⟨.BackendImpl, id⟩ }
    if h2.cache_.isNone then h2.addFatal
    else
      let h3 :=
        if h2.size_ ≠ 0 then
          let h2a := h2.call (.SetMaxSize id h2.size_)
          h2a.expectTrue (env.boolResult h2a.trace)
        else h2
      let h4 := if h3.new_eviction_ then h3.call (.SetNewEviction id) else h3
      let h5 := h4.call (.SetType id h4.type_)
      let h6 := h5.call (.SetFlags id flags)
      let h7 := h6.call (.Init id)
      if env.intResult h7.trace ≠ OK then h7.addFatal
      else { h7 with cache_ := some ⟨.BackendImpl, id⟩ }

/-- `DiskCacheTestWithCache::InitMemoryCache()`. -/
def InitMemoryCache (env : Env) (h : DiskCacheTestWithCache) : DiskCacheTestWithCache :=
  let id := h.next_id
  let h1 := { h with next_id := id + 1, mem_cache_ := some id }.call (.NewMemBackendImpl id)
  let h2 := { h1 with cache_ := some ⟨.MemBackendImpl, id⟩ }
  if h2.cache_.isNone then h2.addFatal
  else
    let h3 :=
      if h2.size_ ≠ 0 then
        let h2a := h2.call (.SetMaxSize id h2.size_)
        h2a.expectTrue (env.boolResult h2a.trace)
      else h2
    let h4 := h3.call (.Init id)
    if env.boolResult h4.trace then h4 else h4.addFatal

/-- `DiskCacheTestWithCache::InitDiskCache()`. -/
def InitDiskCache (env : Env) (h : DiskCacheTestWithCache) : DiskCacheTestWithCache :=
  let h1 := if h.first_cleanup_ then h.call (.DeleteCache h.cache_path_) else h
  if h.first_cleanup_ ∧ env.boolResult h1.trace = false then h1.addFatal
  else
    let h2 := if h1.cache_thread_running then h1 else h1.call .ThreadStart
    if h1.cache_thread_running = false ∧ env.boolResult h2.trace = false then h2.addFatal
    else
      let h3 := { h2 with cache_thread_running := true }.call .ThreadMessageLoop
      if env.boolResult h3.trace = false then h3.addFatal
      else CreateBackend env .kNoRandom h3

/-- `DiskCacheTestWithCache::InitCache()`. A fatal failure inside
`InitMemoryCache` or `InitDiskCache` ends that function only; `InitCache`
goes on with its own assertions. -/
def InitCache (env : Env) (h : DiskCacheTestWithCache) : DiskCacheTestWithCache :=
  let h1 := if h.memory_only_ then InitMemoryCache env h else InitDiskCache env h
  match h1.cache_ with
  | none => h1.addFatal
  | some cache =>
    if h1.first_cleanup_ then
      let h2 := h1.call (.GetEntryCount cache.id)
      if env.intResult h2.trace ≠ 0 then h2.addFatal else h2
    else h1

/-- `DiskCacheTestWithCache::SimulateCrash()`. `none` is the undefined
behaviour of calling through a NULL `cache_impl_`. -/
def SimulateCrash (env : Env) (h : DiskCacheTestWithCache) : Option DiskCacheTestWithCache :=
  if h.memory_only_ then some h.addFatal
  else
    match h.cache_impl_ with
    | none => none
    | some impl =>
      let h1 := h.call (.FlushQueueForTest impl)
      if env.intResult h1.trace ≠ OK then some h1.addFatal
      else
        let h2 := h1.call (.ClearRefCountForTest impl)
        let h3 := h2.call (.Delete impl)
        let h4 := h3.call (.CheckCacheIntegrity h3.cache_path_ h3.new_eviction_ h3.mask_)
        let h5 := h4.expectTrue (env.boolResult h4.trace)
        some (CreateBackend env .kNoRandom h5)

/-- `DiskCacheTestWithCache::TearDown()`. `delete cache_` on a NULL pointer
does nothing. -/
def TearDown (env : Env) (h : DiskCacheTestWithCache) : DiskCacheTestWithCache :=
  let h1 := h.call .RunUntilIdle
  let h2 :=
    match h1.cache_ with
    | some cache => h1.call (.Delete cache.id)
    | none => h1
  let h3 :=
    if h2.cache_thread_running then
      { h2 with cache_thread_running := false }.call .ThreadStop
    else h2
  let h4 :=
    if h3.memory_only_ = false ∧ h3.integrity_ = true then
      let h3a := h3.call (.CheckCacheIntegrity h3.cache_path_ h3.new_eviction_ h3.mask_)
      h3a.expectTrue (env.boolResult h3a.trace)
    else h3
  h4.call .PlatformTestTearDown

/-- `DiskCacheTestWithCache::FlushQueueForTest()`. The test
`memory_only_ || !cache_impl_` is taken in its short-circuit order. -/
def FlushQueueForTest (env : Env) (h : DiskCacheTestWithCache) : DiskCacheTestWithCache :=
  if h.memory_only_ then h
  else
    match h.cache_impl_ with
    | none => h
    | some impl =>
      let h1 := h.call (.FlushQueueForTest impl)
      h1.expectTrue (decide (env.intResult h1.trace = OK))

/-- `DiskCacheTestWithCache::RunTaskForTest(closure)`; a `base::Closure` is
named by a number. -/
def RunTaskForTest (env : Env) (closure : Nat) (h : DiskCacheTestWithCache) :
    DiskCacheTestWithCache :=
  if h.memory_only_ then h.call (.ClosureRun closure)
  else
    match h.cache_impl_ with
    | none => h.call (.ClosureRun closure)
    | some impl =>
      let h1 := h.call (.RunTaskForTest impl closure)
      h1.expectTrue (decide (env.intResult h1.trace = OK))

end DiskCacheTestWithCache

namespace DiskCacheTestWithCache

/-- A harness in mid-test: the default harness after its disk backend, object
0, has been built on the directory `cache` by `cache_thread_`. -/
def crashHarness : DiskCacheTestWithCache :=
  { new "cache" with
    cache_ := some ⟨.BackendImpl, 0⟩, cache_impl_ := some 0, cache_thread_running := true,
    next_id := 1 }

/-- Collaborators whose every result code is `net::OK` and whose every `bool`
answer is `false`: in particular the cache directory never passes the
Integrity Checker. -/
def failingCheckEnv : Env := ⟨fun _ => false, fun _ => 0⟩

/-- Collaborators that answer `net::OK`, zero and `true` to everything. -/
def allOkEnv : Env := ⟨fun _ => true, fun _ => 0⟩

/-- The default harness switched to memory-only mode, before `InitCache`. -/
def memoryOnlyHarness : DiskCacheTestWithCache :=
  { new "cache" with memory_only_ := true }

/-- The default harness switched to the simple cache, before `InitCache`. -/
def simpleCacheHarness : DiskCacheTestWithCache :=
  { new "cache" with simple_cache_mode_ := true }

/-- The default harness with both `memory_only_` and `simple_cache_mode_` set,
before `InitCache`. -/
def memoryOnlySimpleHarness : DiskCacheTestWithCache :=
  { new "cache" with memory_only_ := true, simple_cache_mode_ := true }

end DiskCacheTestWithCache

/-! ## The entry contract behind the harness

`cache_->CreateEntry`, `entry->WriteData` and `entry->ReadData` are virtual
calls into backend code that is not part of `disk_cache_test_base.cc`; the
harness functions only forward to them and wait for the result. -/

/-- `net::ERR_FAILED`, the result of a refused operation. -/
def ERR_FAILED : Int := -2

/-- Modelled from the spec: the backend code behind `disk_cache::Entry` is
missing; an Entry is "a cache record" that "owns a small fixed set of indexed
data streams (integer indices, e.g. 0..2), each an independent byte buffer with
a defined length" and "carries a doomed flag". -/
structure Entry where
  key : Str
  streams : List Str
  doomed : Bool
deriving DecidableEq, Repr

/-- Modelled from the spec: the backend code behind `disk_cache::Backend` is
missing; a Backend "owns exactly one Index", a mapping from key to Entry in
which doomed entries are off the lookup path but may still exist. The records
are kept in creation order; a handle is the position of its record. -/
structure Backend where
  entries : List Entry
deriving DecidableEq, Repr

/-- Modelled from the spec: the lookup path of the Index, which is missing
from the sources: a key is live when a non-doomed entry carries it. -/
def Backend.live (cache : Backend) (key : Str) : Bool :=
  cache.entries.any (fun e => decide (e.key = key) && !e.doomed)

/-- Modelled from the spec: `Backend::CreateEntry`, missing from the sources:
"`CreateEntry(key)` → handle | AlreadyExists"; "creating over an existing live
(non-doomed) key fails", otherwise a fresh record with empty streams 0..2 is
added. The result is the terminal result code, the handle and the backend
afterwards. -/
def Backend.CreateEntry (cache : Backend) (key : Str) : Int × Option Nat × Backend :=
  if cache.live key then (ERR_FAILED, none, cache)
  else
    (OK, some cache.entries.length,
      { cache with entries := cache.entries ++ [{ key := key, streams := [[], [], []], doomed := false }] })

/-- Modelled from the spec: the stream write of an Entry, missing from the
sources: `Write(index, offset, buffer, truncate_flag)` puts the buffer at
`offset` of stream `index`; "`truncate_flag` resizes the stream to
`offset+length` discarding any trailing bytes beyond the new end". A gap
before `offset` is filled with NUL bytes. -/
def Entry.Write (e : Entry) (index offset : Nat) (data : Str) (truncate : Bool) : Entry :=
  match e.streams.get? index with
  | none => e
  | some old =>
    let head : Str := old.take offset ++ List.replicate (offset - old.length) NUL
    let tail : Str := if truncate then [] else old.drop (offset + data.length)
    { e with streams := e.streams.set index ((head ++ data) ++ tail) }

/-- Modelled from the spec: the stream read of an Entry, missing from the
sources: `Read(index, offset, length)` yields the bytes of stream `index`
from `offset` on, at most `length` of them. -/
def Entry.Read (e : Entry) (index offset len : Nat) : Option Str :=
  match e.streams.get? index with
  | none => none
  | some s => some ((s.drop offset).take len)

/-- Modelled from the spec: `Entry::WriteData` behind a handle, missing from
the sources: the terminal result is the number of bytes written, or
`ERR_FAILED` for a handle or stream index that does not exist. -/
def Backend.WriteData (cache : Backend) (entry index offset : Nat) (buf : Str) (len : Nat)
    (truncate : Bool) : Int × Backend :=
  match cache.entries.get? entry with
  | none => (ERR_FAILED, cache)
  | some e =>
    if index < e.streams.length then
      (((buf.take len).length : Nat),
        { cache with entries := cache.entries.set entry (e.Write index offset (buf.take len) truncate) })
    else (ERR_FAILED, cache)

/-- Modelled from the spec: `Entry::ReadData` behind a handle, missing from
the sources: the terminal result is the number of bytes read, with the bytes
placed in the buffer, or `ERR_FAILED` for a handle or stream index that does
not exist. -/
def Backend.ReadData (cache : Backend) (entry index offset len : Nat) : Int × Str :=
  match cache.entries.get? entry with
  | none => (ERR_FAILED, [])
  | some e =>
    match e.Read index offset len with
    | none => (ERR_FAILED, [])
    | some bytes => ((bytes.length : Nat), bytes)

namespace DiskCacheTestWithCache

/-- `DiskCacheTestWithCache::CreateEntry(key, entry)`: forwards to
`cache_->CreateEntry` and returns `cb.GetResult(rv)`, the terminal result of
the call; `*entry` is the second component. -/
def CreateEntry (cache : Backend) (key : Str) : Int × Option Nat × Backend :=
  cache.CreateEntry key

/-- `DiskCacheTestWithCache::WriteData(entry, index, offset, buf, len,
truncate)`: forwards to `entry->WriteData` and returns `cb.GetResult(rv)`. -/
def WriteData (cache : Backend) (entry index offset : Nat) (buf : Str) (len : Nat)
    (truncate : Bool) : Int × Backend :=
  cache.WriteData entry index offset buf len truncate

/-- `DiskCacheTestWithCache::ReadData(entry, index, offset, buf, len)`:
forwards to `entry->ReadData` and returns `cb.GetResult(rv)` together with the
bytes now at the front of `buf`. -/
def ReadData (cache : Backend) (entry index offset len : Nat) : Int × Str :=
  cache.ReadData entry index offset len

end DiskCacheTestWithCache

end net
/-! # Properties -/

namespace net

/-! ## The header block -/

namespace SpdyHeaderBlock

/-- A key is in the block exactly when `find` does not return `end()`. -/
theorem mem_keys_iff (m : SpdyHeaderBlock) (key : Str) :
    key ∈ keys m ↔ ∃ v, find m key = some v := by
  induction m with
  | nil => simp [keys, find]
  | cons kv rest ih =>
    obtain ⟨k, v⟩ := kv
    by_cases hk : k = key
    · simp [keys, find, hk]
    · have hk2 : ¬ key = k := fun e => hk e.symm
      simp only [keys, List.map_cons, List.mem_cons, find, hk, hk2, if_false, false_or]
      exact ih

/-- A key is not in the block exactly when `find` returns `end()`. -/
theorem not_mem_keys_iff (m : SpdyHeaderBlock) (key : Str) :
    key ∉ keys m ↔ find m key = none := by
  rw [mem_keys_iff]
  cases find m key <;> simp

/-- After `m[key] = val`, `find` sees `val` under `key` and is unchanged for
every other key. -/
theorem find_assign (m : SpdyHeaderBlock) (key val key2 : Str) :
    find (assign m key val) key2 = if key2 = key then some val else find m key2 := by
  induction m with
  | nil =>
    by_cases h : key2 = key
    · simp [assign, find, h]
    · have h2 : ¬ key = key2 := fun e => h e.symm
      simp [assign, find, h, h2]
  | cons kv rest ih =>
    obtain ⟨k, v⟩ := kv
    unfold assign
    by_cases h1 : key < k
    · rw [if_pos h1]
      by_cases h : key2 = key
      · simp [find, h]
      · have h2 : ¬ key = key2 := fun e => h e.symm
        simp [find, h, h2]
    · rw [if_neg h1]
      by_cases h3 : key = k
      · rw [if_pos h3]
        subst h3
        by_cases h : key2 = key
        · simp [find, h]
        · have h2 : ¬ key = key2 := fun e => h e.symm
          simp [find, h, h2]
      · rw [if_neg h3]
        by_cases h : key2 = key
        · subst h
          have h4 : ¬ k = key2 := fun e => h3 e.symm
          simp [find, h4, ih]
        · by_cases h5 : k = key2
          · simp [find, h5, h]
          · simp [find, h5, ih, h]

/-- `erase(key)` on a block with a first element. -/
theorem erase_cons (k v : Str) (rest : SpdyHeaderBlock) (key : Str) :
    erase ((k, v) :: rest) key = if k = key then erase rest key else (k, v) :: erase rest key := by
  unfold erase
  by_cases h : k = key <;> simp [List.filter_cons, h]

/-- After `erase(key)`, `find` returns `end()` for `key` and is unchanged for
every other key. -/
theorem find_erase (m : SpdyHeaderBlock) (key key2 : Str) :
    find (erase m key) key2 = if key2 = key then none else find m key2 := by
  induction m with
  | nil => simp [erase, find]
  | cons kv rest ih =>
    obtain ⟨k, v⟩ := kv
    rw [erase_cons]
    by_cases hk : k = key
    · rw [if_pos hk, ih]
      subst hk
      by_cases h : key2 = k
      · simp [h]
      · have h2 : ¬ k = key2 := fun e => h e.symm
        simp [h, h2, find]
    · rw [if_neg hk]
      by_cases h : key2 = key
      · subst h
        simp [find, hk, ih]
      · by_cases h5 : k = key2
        · simp [find, h5, h]
        · simp [find, h5, ih, h]

end SpdyHeaderBlock

/-! ## Splitting a value at its NUL bytes -/

/-- Joining with one NUL byte: a list of two or more pieces. -/
theorem intercalate_cons_cons (v w : Str) (vs : List Str) :
    [NUL].intercalate (v :: w :: vs) = v ++ NUL :: [NUL].intercalate (w :: vs) := by
  simp [List.intercalate]

/-- Joining with one NUL byte: a single piece. -/
theorem intercalate_singleton (v : Str) : [NUL].intercalate [v] = v := by
  simp [List.intercalate]

/-- Every string is the NUL-join of NUL-free pieces, one more than it has NUL
bytes. -/
theorem exists_pieces (value : Str) :
    ∃ vs : List Str, vs ≠ [] ∧ (∀ v ∈ vs, NUL ∉ v) ∧ [NUL].intercalate vs = value ∧
      vs.length = value.count NUL + 1 := by
  induction value with
  | nil => exact ⟨[[]], by simp, by simp, by simp [List.intercalate], by simp⟩
  | cons c cs ih =>
    obtain ⟨vs, h1, h2, h3, h4⟩ := ih
    cases vs with
    | nil => exact absurd rfl h1
    | cons p ps =>
      by_cases hc : c = NUL
      · subst hc
        refine ⟨[] :: p :: ps, by simp, ?_, ?_, ?_⟩
        · intro v hv
          rcases List.mem_cons.mp hv with e | e
          · subst e; simp
          · exact h2 v e
        · rw [intercalate_cons_cons, h3]; rfl
        · simp at h4 ⊢; omega
      · refine ⟨(c :: p) :: ps, by simp, ?_, ?_, ?_⟩
        · intro v hv
          rcases List.mem_cons.mp hv with e | e
          · subst e
            have hp := h2 p (List.mem_cons_self _ _)
            simp only [List.mem_cons, not_or]
            exact ⟨fun e => hc e.symm, hp⟩
          · exact h2 v (List.mem_cons_of_mem _ e)
        · cases ps with
          | nil =>
            rw [intercalate_singleton] at h3 ⊢
            rw [h3]
          | cons q qs =>
            rw [intercalate_cons_cons] at h3 ⊢
            rw [← h3]; rfl
        · have hc2 : ¬ (c == NUL) = true := by simpa using hc
          simp only [List.length_cons] at h4 ⊢
          rw [List.count_cons, if_neg hc2]
          omega

/-- The number of pieces of a NUL-join of NUL-free pieces is one more than the
number of NUL bytes in it. -/
theorem count_NUL_intercalate (vs : List Str) (hvs : vs ≠ []) (hn : ∀ v ∈ vs, NUL ∉ v) :
    ([NUL].intercalate vs).count NUL + 1 = vs.length := by
  induction vs with
  | nil => exact absurd rfl hvs
  | cons v rest ih =>
    have hv : v.count NUL = 0 := List.count_eq_zero.mpr (hn v (List.mem_cons_self _ _))
    cases rest with
    | nil => simp [intercalate_singleton, hv]
    | cons w ws =>
      have := ih (by simp) (fun x hx => hn x (List.mem_cons_of_mem _ hx))
      rw [intercalate_cons_cons, List.count_append, List.count_cons_self, hv]
      simp only [List.length_cons] at this ⊢
      omega

/-! ## `SpdyHeadersToHttpResponse` -/

/-- `find` from the start of a NUL-free piece that is followed by a NUL byte
stops at that byte. -/
theorem strFind_piece (pre v rest : Str) (hv : NUL ∉ v) :
    strFind (pre ++ (v ++ NUL :: rest)) NUL pre.length = some (pre.length + v.length) := by
  unfold strFind
  have hd : (pre ++ (v ++ NUL :: rest)).drop pre.length = v ++ NUL :: rest := by simp
  rw [hd, List.indexOf_append_of_not_mem hv, List.indexOf_cons_self]
  simp

/-- `find` from the start of a last, NUL-free piece returns `npos`. -/
theorem strFind_last (pre v : Str) (hv : NUL ∉ v) :
    strFind (pre ++ v) NUL pre.length = none := by
  unfold strFind
  have hd : (pre ++ v).drop pre.length = v := by simp
  rw [hd, List.indexOf_eq_length.mpr hv]
  simp

/-- The value loop, run from the start of the NUL-free pieces `vs` of a value
with enough fuel, appends one line per piece, in order: the written name, a
colon, the piece, a NUL byte. -/
theorem valueLoop_pieces (protocol_version : Int) (first : Str) (vs : List Str) :
    ∀ (pre : Str) (fuel : Nat) (raw : Str), vs ≠ [] → (∀ v ∈ vs, NUL ∉ v) → vs.length ≤ fuel →
      valueLoop protocol_version first (pre ++ [NUL].intercalate vs) fuel pre.length raw =
        some (raw ++ vs.flatMap (fun v =>
          (if protocol_version ≥ 3 ∧ first.getD 0 NUL = ':' then first.drop 1 else first) ++
            ':' :: (v ++ [NUL]))) := by
  induction vs with
  | nil => intro _ _ _ h; exact absurd rfl h
  | cons v rest ih =>
    intro pre fuel raw _ hn hf
    have hv : NUL ∉ v := hn v (List.mem_cons_self _ _)
    cases fuel with
    | zero => simp at hf
    | succ fuel =>
      cases rest with
      | nil =>
        rw [intercalate_singleton]
        unfold valueLoop
        simp only [strFind_last pre v hv, substrFrom]
        by_cases hc : protocol_version ≥ 3 ∧ first.getD 0 NUL = ':'
        · simp only [if_pos hc]; simp
        · simp only [if_neg hc]; simp
      | cons w ws =>
        rw [intercalate_cons_cons]
        unfold valueLoop
        simp only [strFind_piece pre v _ hv, substr, substrFrom]
        have hpre : pre ++ (v ++ NUL :: [NUL].intercalate (w :: ws)) =
            (pre ++ (v ++ [NUL])) ++ [NUL].intercalate (w :: ws) := by simp
        have hlen : pre.length + v.length + 1 = (pre ++ (v ++ [NUL])).length := by
          simp; omega
        have htake : List.take (pre.length + v.length - pre.length)
            (List.drop pre.length (pre ++ (v ++ NUL :: [NUL].intercalate (w :: ws)))) = v := by
          simp
        rw [htake, hlen, hpre]
        rw [ih (pre ++ (v ++ [NUL])) fuel _ (by simp)
          (fun x hx => hn x (List.mem_cons_of_mem _ hx)) (by simpa using hf)]
        by_cases hc : protocol_version ≥ 3 ∧ first.getD 0 NUL = ':'
        · simp only [if_pos hc]; simp
        · simp only [if_neg hc]; simp

/-- The value loop never runs out of its `value.size() + 1` units of fuel, and
what it appends does not depend on what `raw_headers` held before. -/
theorem valueLoop_total (protocol_version : Int) (first value : Str) :
    ∃ lines : Str, ∀ raw : Str,
      valueLoop protocol_version first value (value.length + 1) 0 raw = some (raw ++ lines) := by
  obtain ⟨vs, h1, h2, h3, h4⟩ := exists_pieces value
  refine ⟨vs.flatMap (fun v =>
          (if protocol_version ≥ 3 ∧ first.getD 0 NUL = ':' then first.drop 1 else first) ++
            ':' :: (v ++ [NUL])), fun raw => ?_⟩
  have hle : vs.length ≤ value.length + 1 := by
    have := List.count_le_length NUL value
    omega
  have := valueLoop_pieces protocol_version first vs [] (value.length + 1) raw h1 h2 hle
  simpa [h3] using this

/-- The loop over the block always ends, and what it appends does not depend
on what `raw_headers` held before. -/
theorem responseHeaderLoop_total (protocol_version : Int) (headers : SpdyHeaderBlock) :
    ∃ out : Str, ∀ raw : Str,
      responseHeaderLoop protocol_version headers raw = some (raw ++ out) := by
  induction headers with
  | nil => exact ⟨[], fun raw => by simp [responseHeaderLoop]⟩
  | cons kv rest ih =>
    obtain ⟨first, second⟩ := kv
    obtain ⟨lines, hl⟩ := valueLoop_total protocol_version first second
    obtain ⟨out, ho⟩ := ih
    refine ⟨lines ++ out, fun raw => ?_⟩
    unfold responseHeaderLoop
    rw [hl raw]
    simp only
    rw [ho]
    simp

/-- The loop over a block that holds the header `(name, value)` between the
headers `pre` and the headers `post`: the output is what `pre` gives, then the
lines of `(name, value)`, then what `post` gives. -/
theorem responseHeaderLoop_split (protocol_version : Int) (pre post : SpdyHeaderBlock)
    (name value : Str) (raw : Str) :
    ∃ before lines after : Str,
      responseHeaderLoop protocol_version pre raw = some before ∧
      (∀ r, valueLoop protocol_version name value (value.length + 1) 0 r = some (r ++ lines)) ∧
      responseHeaderLoop protocol_version post [] = some after ∧
      responseHeaderLoop protocol_version (pre ++ (name, value) :: post) raw =
        some (before ++ lines ++ after) := by
  induction pre generalizing raw with
  | nil =>
    obtain ⟨lines, hl⟩ := valueLoop_total protocol_version name value
    obtain ⟨out, ho⟩ := responseHeaderLoop_total protocol_version post
    refine ⟨raw, lines, out, by simp [responseHeaderLoop], hl, by simpa using ho [], ?_⟩
    simp only [List.nil_append]
    unfold responseHeaderLoop
    rw [hl raw]
    simp only
    rw [ho]
  | cons kv rest ih =>
    obtain ⟨first, second⟩ := kv
    obtain ⟨l1, hl1⟩ := valueLoop_total protocol_version first second
    obtain ⟨before, lines, after, e1, e2, e3, e4⟩ := ih (raw ++ l1)
    refine ⟨before, lines, after, ?_, e2, e3, ?_⟩
    · unfold responseHeaderLoop
      rw [hl1 raw]
      exact e1
    · simp only [List.cons_append]
      unfold responseHeaderLoop
      rw [hl1 raw]
      exact e4

end net

namespace net

/-- The name the value loop writes, spelled with `head?` and `tail`: under
`protocol_version >= 3` a leading colon is dropped. -/
theorem written_name_eq (protocol_version : Int) (name : Str) :
    (if protocol_version ≥ 3 ∧ name.getD 0 NUL = ':' then name.drop 1 else name) =
      (if 3 ≤ protocol_version ∧ name.head? = some ':' then name.tail else name) := by
  have hn : ¬ (NUL = ':') := by decide
  cases name with
  | nil => simp [hn]
  | cons c t => simp

/-- What an accepting run of `SpdyHeadersToHttpResponse` did: both required
keys were found, and the response carries the output of the loop over the
block, started from the status line. -/
theorem SpdyHeadersToHttpResponse_accepted (now : Nat) (headers : SpdyHeaderBlock)
    (protocol_version : Int) (response r : HttpResponseInfo)
    (h : SpdyHeadersToHttpResponse now headers protocol_version response = some (true, r)) :
    ∃ status version raw,
      SpdyHeaderBlock.find headers
        (if protocol_version ≥ 3 then ":status".toList else "status".toList) = some status ∧
      SpdyHeaderBlock.find headers
        (if protocol_version ≥ 3 then ":version".toList else "version".toList) = some version ∧
      responseHeaderLoop protocol_version headers (((version ++ [' ']) ++ status) ++ [NUL]) =
        some raw ∧
      r.headers = some raw ∧ r.was_fetched_via_spdy = true ∧ r.response_time = now := by
  unfold SpdyHeadersToHttpResponse at h
  simp only at h
  cases hs : SpdyHeaderBlock.find headers
      (if protocol_version ≥ 3 then ":status".toList else "status".toList) with
  | none => rw [hs] at h; simp at h
  | some status =>
    rw [hs] at h
    simp only at h
    cases hv : SpdyHeaderBlock.find headers
        (if protocol_version ≥ 3 then ":version".toList else "version".toList) with
    | none => rw [hv] at h; simp at h
    | some version =>
      rw [hv] at h
      simp only at h
      cases hl : responseHeaderLoop protocol_version headers
          (((version ++ [' ']) ++ status) ++ [NUL]) with
      | none => rw [hl] at h; simp at h
      | some raw =>
        rw [hl] at h
        simp only [Option.some.injEq, Prod.mk.injEq, true_and] at h
        subst h
        exact ⟨status, version, raw, rfl, rfl, hl, rfl, rfl, rfl⟩

/-- C2. `SpdyHeadersToHttpResponse` always returns, and it returns `true`
exactly when the block has both required keys: `:status` and `:version` when
`protocol_version >= 3`, `status` and `version` otherwise. -/
theorem SpdyHeadersToHttpResponse_true_iff (now : Nat) (headers : SpdyHeaderBlock)
    (protocol_version : Int) (response : HttpResponseInfo) :
    ∃ r, SpdyHeadersToHttpResponse now headers protocol_version response = some r ∧
      (3 ≤ protocol_version →
        (r.1 = true ↔ ":status".toList ∈ SpdyHeaderBlock.keys headers ∧
          ":version".toList ∈ SpdyHeaderBlock.keys headers)) ∧
      (protocol_version < 3 →
        (r.1 = true ↔ "status".toList ∈ SpdyHeaderBlock.keys headers ∧
          "version".toList ∈ SpdyHeaderBlock.keys headers)) := by
  have key : ∃ r, SpdyHeadersToHttpResponse now headers protocol_version response = some r ∧
      (r.1 = true ↔
        (if protocol_version ≥ 3 then ":status".toList else "status".toList) ∈
            SpdyHeaderBlock.keys headers ∧
          (if protocol_version ≥ 3 then ":version".toList else "version".toList) ∈
            SpdyHeaderBlock.keys headers) := by
    unfold SpdyHeadersToHttpResponse
    simp only [SpdyHeaderBlock.mem_keys_iff]
    cases hs : SpdyHeaderBlock.find headers
        (if protocol_version ≥ 3 then ":status".toList else "status".toList) with
    | none => exact ⟨_, rfl, by simp⟩
    | some status =>
      cases hv : SpdyHeaderBlock.find headers
          (if protocol_version ≥ 3 then ":version".toList else "version".toList) with
      | none => exact ⟨_, rfl, by simp⟩
      | some version =>
        obtain ⟨out, ho⟩ := responseHeaderLoop_total protocol_version headers
        simp only [ho]
        exact ⟨_, rfl, by simp⟩
  obtain ⟨r, e, hiff⟩ := key
  refine ⟨r, e, fun hp => ?_, fun hp => ?_⟩
  · have hp2 : protocol_version ≥ 3 := hp
    simpa only [hp2, if_true] using hiff
  · have hp2 : ¬ protocol_version ≥ 3 := by omega
    simpa only [hp2, if_false] using hiff

/-- C3, as stated, fails. The SPDY/3 block with `:status` = `200` and
`:version` = `HTTP/1.1` is accepted; its raw header string is
`HTTP/1.1 200\0status:200\0version:HTTP/1.1\0`, which nowhere holds the line
`:status:200\0` the claim expects for the header `:status`. -/
theorem SpdyHeadersToHttpResponse_colon_name_counterexample :
    (":status".toList, "200".toList) ∈ minimalSpdy3Block ∧
    (SpdyHeadersToHttpResponse 0 minimalSpdy3Block 3 blankResponse).map
        (fun r => (r.1, r.2.headers)) =
      some (true, some "HTTP/1.1 200\x00status:200\x00version:HTTP/1.1\x00".toList) ∧
    ¬ ((":status".toList ++ ':' :: ("200".toList ++ [NUL])) <:+:
        "HTTP/1.1 200\x00status:200\x00version:HTTP/1.1\x00".toList) := by
  decide

/-- The raw header string of an accepted block around one of its headers. In
an accepted block that holds the header `(name, value)` between the headers
`pre` and the headers `post`, where `value` is the NUL-join of the NUL-free
pieces `vs`, the raw header string is what the status line and the headers
`pre` give, then one line per piece, in order, then what the headers `post`
give. -/
theorem accepted_block_lines (now : Nat) (protocol_version : Int)
    (response r : HttpResponseInfo) (pre post : SpdyHeaderBlock) (name : Str) (vs : List Str)
    (hvs : vs ≠ []) (hnul : ∀ v ∈ vs, NUL ∉ v)
    (hr : SpdyHeadersToHttpResponse now (pre ++ (name, [NUL].intercalate vs) :: post)
      protocol_version response = some (true, r)) :
    ∃ status version before after,
      SpdyHeaderBlock.find (pre ++ (name, [NUL].intercalate vs) :: post)
        (if protocol_version ≥ 3 then ":status".toList else "status".toList) = some status ∧
      SpdyHeaderBlock.find (pre ++ (name, [NUL].intercalate vs) :: post)
        (if protocol_version ≥ 3 then ":version".toList else "version".toList) = some version ∧
      responseHeaderLoop protocol_version pre (((version ++ [' ']) ++ status) ++ [NUL]) =
        some before ∧
      responseHeaderLoop protocol_version post [] = some after ∧
      r.headers = some (before ++
        vs.flatMap (fun v =>
          (if protocol_version ≥ 3 ∧ name.getD 0 NUL = ':' then name.drop 1 else name) ++
            ':' :: (v ++ [NUL])) ++ after) := by
  obtain ⟨status, version, raw, hfs, hfv, hloop, hh, _, _⟩ :=
    SpdyHeadersToHttpResponse_accepted now _ protocol_version response r hr
  obtain ⟨before, lines, after, e1, e2, e3, e4⟩ :=
    responseHeaderLoop_split protocol_version pre post name ([NUL].intercalate vs)
      (((version ++ [' ']) ++ status) ++ [NUL])
  have hlines := valueLoop_pieces protocol_version name vs []
    (([NUL].intercalate vs).length + 1) [] hvs hnul (by
      have := count_NUL_intercalate vs hvs hnul
      have := List.count_le_length NUL ([NUL].intercalate vs)
      omega)
  simp only [List.nil_append, List.length_nil] at hlines
  rw [e2 []] at hlines
  simp only [List.nil_append, Option.some.injEq] at hlines
  refine ⟨status, version, before, after, hfs, hfv, e1, e3, ?_⟩
  rw [hh, ← hloop, e4, hlines]

/-- C3, amended. In an accepted block that holds the header `(name, value)`
between the headers `pre` and the headers `post`, where `value` is the
NUL-join of the NUL-free pieces `vs`, the raw header string is: what the
status line and the headers `pre` give, then exactly one line per piece, in
order, then what the headers `post` give. The line of a piece is the written
name, a colon, the piece and a NUL byte; the written name is `name` without
its leading colon when `protocol_version >= 3` and `name` starts with a colon,
and `name` otherwise. The number of pieces is one more than the number of NUL
bytes in `value`. -/
theorem SpdyHeadersToHttpResponse_value_lines (now : Nat) (protocol_version : Int)
    (response : HttpResponseInfo) (pre post : SpdyHeaderBlock) (name : Str) (vs : List Str)
    (hvs : vs ≠ []) (hnul : ∀ v ∈ vs, NUL ∉ v)
    (hacc : ∃ r, SpdyHeadersToHttpResponse now (pre ++ (name, [NUL].intercalate vs) :: post)
      protocol_version response = some (true, r)) :
    ∃ r status version before after,
      SpdyHeadersToHttpResponse now (pre ++ (name, [NUL].intercalate vs) :: post)
        protocol_version response = some (true, r) ∧
      responseHeaderLoop protocol_version pre (((version ++ [' ']) ++ status) ++ [NUL]) =
        some before ∧
      responseHeaderLoop protocol_version post [] = some after ∧
      r.headers = some (before ++
        vs.flatMap (fun v =>
          (if 3 ≤ protocol_version ∧ name.head? = some ':' then name.tail else name) ++
            ':' :: (v ++ [NUL])) ++ after) ∧
      vs.length = ([NUL].intercalate vs).count NUL + 1 := by
  obtain ⟨r, hr⟩ := hacc
  obtain ⟨status, version, before, after, _, _, e1, e3, e4⟩ :=
    accepted_block_lines now protocol_version response r pre post name vs hvs hnul hr
  rw [written_name_eq] at e4
  refine ⟨r, status, version, before, after, hr, e1, e3, e4, ?_⟩
  have := count_NUL_intercalate vs hvs hnul
  omega

/-- C3 amended, at a concrete input: in the minimal SPDY/3 block the header
`:status` with the single piece `200` gives the one line `status:200\0`, right
after the status line. -/
theorem SpdyHeadersToHttpResponse_value_lines_witness :
    ["200".toList] ≠ [] ∧ (∀ v ∈ ["200".toList], NUL ∉ v) ∧
    ∃ r after, SpdyHeadersToHttpResponse 0 minimalSpdy3Block 3 blankResponse = some (true, r) ∧
      r.headers = some ("HTTP/1.1 200\x00".toList ++ "status:200\x00".toList ++ after) := by
  have h1 : ["200".toList] ≠ [] := by simp
  have h2 : ∀ v ∈ ["200".toList], NUL ∉ v := by decide
  obtain ⟨r, status, version, before, after, e1, e2, e3, e4, _⟩ :=
    SpdyHeadersToHttpResponse_value_lines 0 3 blankResponse []
      [(":version".toList, "HTTP/1.1".toList)] ":status".toList ["200".toList] h1 h2 ⟨_, rfl⟩
  refine ⟨h1, h2, r, after, e1, ?_⟩
  have e5 : r.headers = some "HTTP/1.1 200\x00status:200\x00version:HTTP/1.1\x00".toList := by
    have : SpdyHeadersToHttpResponse 0 minimalSpdy3Block 3 blankResponse =
        some (true, ⟨0, some "HTTP/1.1 200\x00status:200\x00version:HTTP/1.1\x00".toList, true⟩) := by
      decide
    have e1' : SpdyHeadersToHttpResponse 0 minimalSpdy3Block 3 blankResponse = some (true, r) := e1
    rw [this] at e1'
    simp only [Option.some.injEq, Prod.mk.injEq, true_and] at e1'
    rw [← e1']
  have e6 : responseHeaderLoop 3 [(":version".toList, "HTTP/1.1".toList)] [] =
      some "version:HTTP/1.1\x00".toList := by decide
  have e7 : after = "version:HTTP/1.1\x00".toList := by
    have e3' : responseHeaderLoop 3 [(":version".toList, "HTTP/1.1".toList)] [] = some after := e3
    rw [e6] at e3'
    exact (Option.some.inj e3').symm
  rw [e5, e7]
  decide

/-- C9. In an accepted block that holds the header `(name, value)` between the
headers `pre` and the headers `post`, the raw header string is: what the
status line (the values found under the version key and the status key) and
the headers `pre` give, then the lines of that header, one per NUL-free piece
of `value`, then what the headers `post` give. Every one of those lines is the
written name, a colon, the piece and a NUL byte, where: when
`protocol_version >= 3` and `name` starts with a colon the written name is
`name` without that one colon; when `protocol_version >= 3` and `name` does
not start with a colon it is `name`; and when `protocol_version < 3` it is
`name`, colon or not. -/
theorem SpdyHeadersToHttpResponse_written_names (now : Nat) (protocol_version : Int)
    (response : HttpResponseInfo) (pre post : SpdyHeaderBlock) (name value : Str)
    (hacc : ∃ r, SpdyHeadersToHttpResponse now (pre ++ (name, value) :: post)
      protocol_version response = some (true, r)) :
    ∃ r status version before after vs written,
      SpdyHeadersToHttpResponse now (pre ++ (name, value) :: post)
        protocol_version response = some (true, r) ∧
      SpdyHeaderBlock.find (pre ++ (name, value) :: post)
        (if 3 ≤ protocol_version then ":status".toList else "status".toList) = some status ∧
      SpdyHeaderBlock.find (pre ++ (name, value) :: post)
        (if 3 ≤ protocol_version then ":version".toList else "version".toList) = some version ∧
      responseHeaderLoop protocol_version pre (((version ++ [' ']) ++ status) ++ [NUL]) =
        some before ∧
      vs ≠ [] ∧ (∀ v ∈ vs, NUL ∉ v) ∧ [NUL].intercalate vs = value ∧
      responseHeaderLoop protocol_version post [] = some after ∧
      r.headers = some (before ++ vs.flatMap (fun v => written ++ ':' :: (v ++ [NUL])) ++ after) ∧
      (3 ≤ protocol_version → ∀ t, name = ':' :: t → written = t) ∧
      (3 ≤ protocol_version → name.head? ≠ some ':' → written = name) ∧
      (protocol_version < 3 → written = name) := by
  obtain ⟨vs, h1, h2, h3, _⟩ := exists_pieces value
  subst h3
  obtain ⟨r, hr⟩ := hacc
  obtain ⟨status, version, before, after, hfs, hfv, e1, e3, e4⟩ :=
    accepted_block_lines now protocol_version response r pre post name vs h1 h2 hr
  rw [written_name_eq] at e4
  refine ⟨r, status, version, before, after, vs, _, hr, hfs, hfv, e1, h1, h2, rfl, e3, e4,
    ?_, ?_, ?_⟩
  · intro hp t ht
    subst ht
    simp [hp]
  · intro hp hh
    simp [hh]
  · intro hp
    have : ¬ 3 ≤ protocol_version := by omega
    simp [this]

/-- A NUL-free string has itself as its only list of NUL-free pieces. -/
theorem pieces_of_NUL_free (value : Str) (vs : List Str) (hvalue : NUL ∉ value)
    (hvs : vs ≠ []) (hnul : ∀ v ∈ vs, NUL ∉ v) (hjoin : [NUL].intercalate vs = value) :
    vs = [value] := by
  have hcount := count_NUL_intercalate vs hvs hnul
  rw [hjoin, List.count_eq_zero.mpr hvalue] at hcount
  cases vs with
  | nil => exact absurd rfl hvs
  | cons v rest =>
    cases rest with
    | nil =>
      rw [intercalate_singleton] at hjoin
      rw [hjoin]
    | cons w ws => simp at hcount

/-- C9, at two concrete inputs. In the minimal SPDY/3 block the header
`:status` is written as `status:200\0`, right after the status line. In a
SPDY/2 block the header `:x` is written with its colon, as `:x:1\0`. -/
theorem SpdyHeadersToHttpResponse_written_names_witness :
    (∃ r, SpdyHeadersToHttpResponse 0 minimalSpdy3Block 3 blankResponse = some (true, r) ∧
      r.headers = some ("HTTP/1.1 200\x00".toList ++ "status:200\x00".toList ++
        "version:HTTP/1.1\x00".toList)) ∧
    (∃ r, SpdyHeadersToHttpResponse 0 colonSpdy2Block 2 blankResponse = some (true, r) ∧
      r.headers = some ("HTTP/1.1 200\x00".toList ++ ":x:1\x00".toList ++
        "status:200\x00version:HTTP/1.1\x00".toList)) := by
  constructor
  · obtain ⟨r, status, version, before, after, vs, written, e1, hfs, hfv, hb, hv1, hv2, hv3,
        ha, hh, hw, _, _⟩ :=
      SpdyHeadersToHttpResponse_written_names 0 3 blankResponse []
        [(":version".toList, "HTTP/1.1".toList)] ":status".toList "200".toList ⟨_, rfl⟩
    refine ⟨r, e1, ?_⟩
    have hs : status = "200".toList := by
      have : SpdyHeaderBlock.find minimalSpdy3Block ":status".toList = some status := hfs
      rw [show SpdyHeaderBlock.find minimalSpdy3Block ":status".toList = some "200".toList
        from by decide] at this
      exact (Option.some.inj this).symm
    have hver : version = "HTTP/1.1".toList := by
      have : SpdyHeaderBlock.find minimalSpdy3Block ":version".toList = some version := hfv
      rw [show SpdyHeaderBlock.find minimalSpdy3Block ":version".toList =
        some "HTTP/1.1".toList from by decide] at this
      exact (Option.some.inj this).symm
    have hbefore : before = "HTTP/1.1 200\x00".toList := by
      subst hs hver
      have : some ("HTTP/1.1 200\x00".toList) = some before := hb
      exact (Option.some.inj this).symm
    have hafter : after = "version:HTTP/1.1\x00".toList := by
      rw [show responseHeaderLoop 3 [(":version".toList, "HTTP/1.1".toList)] [] =
        some "version:HTTP/1.1\x00".toList from by decide] at ha
      exact (Option.some.inj ha).symm
    have hvs : vs = ["200".toList] :=
      pieces_of_NUL_free "200".toList vs (by decide) hv1 hv2 hv3
    have hwritten : written = "status".toList := hw (by decide) "status".toList rfl
    rw [hh, hbefore, hafter, hvs, hwritten]
    rfl
  · obtain ⟨r, status, version, before, after, vs, written, e1, hfs, hfv, hb, hv1, hv2, hv3,
        ha, hh, _, _, hw⟩ :=
      SpdyHeadersToHttpResponse_written_names 0 2 blankResponse []
        [("status".toList, "200".toList), ("version".toList, "HTTP/1.1".toList)]
        ":x".toList "1".toList ⟨_, rfl⟩
    refine ⟨r, e1, ?_⟩
    have hs : status = "200".toList := by
      have : SpdyHeaderBlock.find colonSpdy2Block "status".toList = some status := hfs
      rw [show SpdyHeaderBlock.find colonSpdy2Block "status".toList = some "200".toList
        from by decide] at this
      exact (Option.some.inj this).symm
    have hver : version = "HTTP/1.1".toList := by
      have : SpdyHeaderBlock.find colonSpdy2Block "version".toList = some version := hfv
      rw [show SpdyHeaderBlock.find colonSpdy2Block "version".toList =
        some "HTTP/1.1".toList from by decide] at this
      exact (Option.some.inj this).symm
    have hbefore : before = "HTTP/1.1 200\x00".toList := by
      subst hs hver
      have : some ("HTTP/1.1 200\x00".toList) = some before := hb
      exact (Option.some.inj this).symm
    have hafter : after = "status:200\x00version:HTTP/1.1\x00".toList := by
      rw [show responseHeaderLoop 2
        [("status".toList, "200".toList), ("version".toList, "HTTP/1.1".toList)] [] =
        some "status:200\x00version:HTTP/1.1\x00".toList from by decide] at ha
      exact (Option.some.inj ha).symm
    have hvs : vs = ["1".toList] :=
      pieces_of_NUL_free "1".toList vs (by decide) hv1 hv2 hv3
    have hwritten : written = ":x".toList := hw (by decide)
    rw [hh, hbefore, hafter, hvs, hwritten]
    rfl

end net

namespace net

/-! ## `CreateSpdyHeadersFromHttpRequest` -/

/-- Appending a NUL byte and one more value to the first piece of a NUL-join
is the same as joining with that value as a piece of its own. -/
theorem intercalate_append_piece (a b : Str) (rest : List Str) :
    [NUL].intercalate (((a ++ [NUL]) ++ b) :: rest) = [NUL].intercalate (a :: b :: rest) := by
  cases rest with
  | nil => simp [List.intercalate]
  | cons w ws => simp [List.intercalate]

/-- What the loop over the request headers leaves under a key. A dropped name
keeps what the block had. Any other key gets the values of the request headers
whose lowercased name is the key, in request order, NUL-joined after the value
the block had, if it had one. -/
theorem requestHeaderLoop_find (request_headers : HttpRequestHeaders) :
    ∀ (headers : SpdyHeaderBlock) (key : Str),
      ((key = "connection".toList ∨ key = "proxy-connection".toList ∨
          key = "transfer-encoding".toList) →
        SpdyHeaderBlock.find (requestHeaderLoop request_headers headers) key =
          SpdyHeaderBlock.find headers key) ∧
      (¬ (key = "connection".toList ∨ key = "proxy-connection".toList ∨
          key = "transfer-encoding".toList) →
        SpdyHeaderBlock.find (requestHeaderLoop request_headers headers) key =
          (match SpdyHeaderBlock.find headers key with
            | some old => some ([NUL].intercalate (old ::
                (request_headers.filter
                  (fun nv => decide (StringToLowerASCII nv.1 = key))).map Prod.snd))
            | none =>
              if (request_headers.filter
                  (fun nv => decide (StringToLowerASCII nv.1 = key))).map Prod.snd = [] then none
              else some ([NUL].intercalate
                ((request_headers.filter
                  (fun nv => decide (StringToLowerASCII nv.1 = key))).map Prod.snd)))) := by
  induction request_headers with
  | nil =>
    intro headers key
    refine ⟨fun _ => rfl, fun _ => ?_⟩
    cases hf : SpdyHeaderBlock.find headers key <;>
      simp [requestHeaderLoop, intercalate_singleton, hf]
  | cons nv rest ih =>
    obtain ⟨n, v⟩ := nv
    intro headers key
    unfold requestHeaderLoop
    simp only
    by_cases hd : StringToLowerASCII n = "connection".toList ∨
        StringToLowerASCII n = "proxy-connection".toList ∨
        StringToLowerASCII n = "transfer-encoding".toList
    · rw [if_pos hd]
      refine ⟨(ih headers key).1, fun hk => ?_⟩
      have hne : ¬ StringToLowerASCII n = key := by
        intro e; rw [e] at hd; exact hk hd
      have hfilter : (List.filter (fun nv => decide (StringToLowerASCII nv.1 = key))
          ((n, v) :: rest)) =
          List.filter (fun nv => decide (StringToLowerASCII nv.1 = key)) rest := by
        simp [List.filter_cons, hne]
      rw [(ih headers key).2 hk, hfilter]
    · rw [if_neg hd]
      by_cases hkey : StringToLowerASCII n = key
      · subst hkey
        refine ⟨fun hk => absurd hk hd, fun _ => ?_⟩
        cases hf : SpdyHeaderBlock.find headers (StringToLowerASCII n) with
        | none =>
          simp only
          rw [(ih _ _).2 hd, SpdyHeaderBlock.find_assign]
          simp [List.filter_cons]
        | some old =>
          simp only
          rw [(ih _ _).2 hd, SpdyHeaderBlock.find_assign]
          simp only [if_true]
          rw [intercalate_append_piece]
          simp [List.filter_cons]
      · have hkey2 : ¬ key = StringToLowerASCII n := fun e => hkey e.symm
        have hfilter : (List.filter (fun nv => decide (StringToLowerASCII nv.1 = key))
            ((n, v) :: rest)) =
            List.filter (fun nv => decide (StringToLowerASCII nv.1 = key)) rest := by
          simp [List.filter_cons, hkey]
        rw [hfilter]
        cases hf : SpdyHeaderBlock.find headers (StringToLowerASCII n) with
        | none =>
          simp only
          refine ⟨fun hk => ?_, fun hk => ?_⟩
          · rw [(ih _ _).1 hk, SpdyHeaderBlock.find_assign, if_neg hkey2]
          · rw [(ih _ _).2 hk, SpdyHeaderBlock.find_assign, if_neg hkey2]
        | some old =>
          simp only
          refine ⟨fun hk => ?_, fun hk => ?_⟩
          · rw [(ih _ _).1 hk, SpdyHeaderBlock.find_assign, if_neg hkey2]
          · rw [(ih _ _).2 hk, SpdyHeaderBlock.find_assign, if_neg hkey2]

/-- `find` on the result of `CreateSpdyHeadersFromHttpRequest`, for
`protocol_version < 3`: the five request-line keys hold the request-line
values, every other key holds what the loop over the request headers left. -/
theorem CreateSpdyHeadersFromHttpRequest_find_v2 {GURL : Type} (U : UrlFns GURL)
    (info : HttpRequestInfo GURL) (request_headers : HttpRequestHeaders)
    (headers : SpdyHeaderBlock) (protocol_version : Int) (direct : Bool)
    (hp : protocol_version < 3) (key : Str) :
    SpdyHeaderBlock.find
        (CreateSpdyHeadersFromHttpRequest U info request_headers headers protocol_version direct)
        key =
      if key = "url".toList then
        some (if direct then U.PathForRequest info.url else U.SpecForRequest info.url)
      else if key = "scheme".toList then some (U.scheme info.url)
      else if key = "host".toList then some (U.GetHostAndOptionalPort info.url)
      else if key = "method".toList then some info.method
      else if key = "version".toList then some "HTTP/1.1".toList
      else SpdyHeaderBlock.find (requestHeaderLoop request_headers headers) key := by
  unfold CreateSpdyHeadersFromHttpRequest
  simp only [hp, if_true]
  cases direct <;> simp [SpdyHeaderBlock.find_assign, kHttpProtocolVersion]

/-- `find` on the result of `CreateSpdyHeadersFromHttpRequest`, for
`protocol_version >= 3`: `host` is absent, the five request-line keys hold the
request-line values, every other key holds what the loop over the request
headers left. -/
theorem CreateSpdyHeadersFromHttpRequest_find_v3 {GURL : Type} (U : UrlFns GURL)
    (info : HttpRequestInfo GURL) (request_headers : HttpRequestHeaders)
    (headers : SpdyHeaderBlock) (protocol_version : Int) (direct : Bool)
    (hp : 3 ≤ protocol_version) (key : Str) :
    SpdyHeaderBlock.find
        (CreateSpdyHeadersFromHttpRequest U info request_headers headers protocol_version direct)
        key =
      if key = "host".toList then none
      else if key = ":path".toList then some (U.PathForRequest info.url)
      else if key = ":scheme".toList then some (U.scheme info.url)
      else if key = ":host".toList then some (U.GetHostAndOptionalPort info.url)
      else if key = ":method".toList then some info.method
      else if key = ":version".toList then some "HTTP/1.1".toList
      else SpdyHeaderBlock.find (requestHeaderLoop request_headers headers) key := by
  unfold CreateSpdyHeadersFromHttpRequest
  have hp2 : ¬ protocol_version < 3 := by omega
  simp only [hp2, if_false]
  simp [SpdyHeaderBlock.find_assign, SpdyHeaderBlock.find_erase, kHttpProtocolVersion]

end net

namespace net

/-- C4. Applied to an empty block, `CreateSpdyHeadersFromHttpRequest` gives a
block (1) without the keys `connection`, `proxy-connection` and
`transfer-encoding`, and (2) in which every key other than the request-line
keys of the protocol version is the lowercased name of a request header and
holds the values of all request headers with that lowercased name, in request
order, joined by single NUL bytes. -/
theorem CreateSpdyHeadersFromHttpRequest_header_keys {GURL : Type} (U : UrlFns GURL)
    (info : HttpRequestInfo GURL) (request_headers : HttpRequestHeaders)
    (protocol_version : Int) (direct : Bool) :
    ∃ block, block =
        CreateSpdyHeadersFromHttpRequest U info request_headers [] protocol_version direct ∧
      "connection".toList ∉ SpdyHeaderBlock.keys block ∧
      "proxy-connection".toList ∉ SpdyHeaderBlock.keys block ∧
      "transfer-encoding".toList ∉ SpdyHeaderBlock.keys block ∧
      ∀ key ∈ SpdyHeaderBlock.keys block,
        key ∉ (if protocol_version < 3 then
            ["version".toList, "method".toList, "host".toList, "scheme".toList, "url".toList]
          else
            [":version".toList, ":method".toList, ":host".toList, ":scheme".toList,
              ":path".toList]) →
        (∃ nv ∈ request_headers, StringToLowerASCII nv.1 = key) ∧
        SpdyHeaderBlock.find block key =
          some ([NUL].intercalate
            ((request_headers.filter
              (fun nv => decide (StringToLowerASCII nv.1 = key))).map Prod.snd)) := by
  refine ⟨_, rfl, ?_⟩
  have hloop : ∀ key, SpdyHeaderBlock.find (requestHeaderLoop request_headers []) key =
      if (key = "connection".toList ∨ key = "proxy-connection".toList ∨
          key = "transfer-encoding".toList) then none
      else if (request_headers.filter
          (fun nv => decide (StringToLowerASCII nv.1 = key))).map Prod.snd = [] then none
      else some ([NUL].intercalate
        ((request_headers.filter
          (fun nv => decide (StringToLowerASCII nv.1 = key))).map Prod.snd)) := by
    intro key
    by_cases hd : (key = "connection".toList ∨ key = "proxy-connection".toList ∨
          key = "transfer-encoding".toList)
    · rw [if_pos hd, (requestHeaderLoop_find request_headers [] key).1 hd]
      rfl
    · rw [if_neg hd, (requestHeaderLoop_find request_headers [] key).2 hd]
      rfl
  have hmem : ∀ key, (request_headers.filter
          (fun nv => decide (StringToLowerASCII nv.1 = key))).map Prod.snd ≠ [] →
      ∃ nv ∈ request_headers, StringToLowerASCII nv.1 = key := by
    intro key hne
    cases hfl : request_headers.filter (fun nv => decide (StringToLowerASCII nv.1 = key)) with
    | nil => rw [hfl] at hne; simp at hne
    | cons x xs =>
      have hx : x ∈ request_headers.filter (fun nv => decide (StringToLowerASCII nv.1 = key)) := by
        rw [hfl]; exact List.mem_cons_self _ _
      rw [List.mem_filter] at hx
      exact ⟨x, hx.1, by simpa using hx.2⟩
  by_cases hp : protocol_version < 3
  · have hfind := CreateSpdyHeadersFromHttpRequest_find_v2 U info request_headers []
      protocol_version direct hp
    refine ⟨?_, ?_, ?_, ?_⟩
    · rw [SpdyHeaderBlock.not_mem_keys_iff, hfind, hloop]; simp
    · rw [SpdyHeaderBlock.not_mem_keys_iff, hfind, hloop]; simp
    · rw [SpdyHeaderBlock.not_mem_keys_iff, hfind, hloop]; simp
    · intro key hk hres
      rw [if_pos hp] at hres
      simp only [List.mem_cons, List.mem_singleton, List.not_mem_nil, or_false, not_or] at hres
      obtain ⟨r1, r2, r3, r4, r5⟩ := hres
      rw [SpdyHeaderBlock.mem_keys_iff] at hk
      obtain ⟨x, hx⟩ := hk
      rw [hfind, if_neg r5, if_neg r4, if_neg r3, if_neg r2, if_neg r1, hloop] at hx
      rw [hfind, if_neg r5, if_neg r4, if_neg r3, if_neg r2, if_neg r1, hloop]
      by_cases hd : (key = "connection".toList ∨ key = "proxy-connection".toList ∨
          key = "transfer-encoding".toList)
      · rw [if_pos hd] at hx; simp at hx
      · rw [if_neg hd] at hx ⊢
        by_cases he : (request_headers.filter
            (fun nv => decide (StringToLowerASCII nv.1 = key))).map Prod.snd = []
        · rw [if_pos he] at hx; simp at hx
        · rw [if_neg he]
          exact ⟨hmem key he, rfl⟩
  · have hp3 : 3 ≤ protocol_version := by omega
    have hfind := CreateSpdyHeadersFromHttpRequest_find_v3 U info request_headers []
      protocol_version direct hp3
    refine ⟨?_, ?_, ?_, ?_⟩
    · rw [SpdyHeaderBlock.not_mem_keys_iff, hfind, hloop]; simp
    · rw [SpdyHeaderBlock.not_mem_keys_iff, hfind, hloop]; simp
    · rw [SpdyHeaderBlock.not_mem_keys_iff, hfind, hloop]; simp
    · intro key hk hres
      rw [if_neg hp] at hres
      simp only [List.mem_cons, List.mem_singleton, List.not_mem_nil, or_false, not_or] at hres
      obtain ⟨r1, r2, r3, r4, r5⟩ := hres
      rw [SpdyHeaderBlock.mem_keys_iff] at hk
      obtain ⟨x, hx⟩ := hk
      by_cases hh : key = "host".toList
      · rw [hfind, if_pos hh] at hx; simp at hx
      · rw [hfind, if_neg hh, if_neg r5, if_neg r4, if_neg r3, if_neg r2, if_neg r1, hloop] at hx
        rw [hfind, if_neg hh, if_neg r5, if_neg r4, if_neg r3, if_neg r2, if_neg r1, hloop]
        by_cases hd : (key = "connection".toList ∨ key = "proxy-connection".toList ∨
            key = "transfer-encoding".toList)
        · rw [if_pos hd] at hx; simp at hx
        · rw [if_neg hd] at hx ⊢
          by_cases he : (request_headers.filter
              (fun nv => decide (StringToLowerASCII nv.1 = key))).map Prod.snd = []
          · rw [if_pos he] at hx; simp at hx
          · rw [if_neg he]
            exact ⟨hmem key he, rfl⟩

/-- C5. Whatever the block held and whatever the request headers are,
`CreateSpdyHeadersFromHttpRequest` leaves the request-line keys of the
protocol version set from the request: for `protocol_version < 3`, `version`,
`method`, `host`, `scheme` and `url`, the last being the path when `direct`
and the full spec otherwise; for `protocol_version >= 3`, `:version`,
`:method`, `:host`, `:scheme` and `:path`, always the path, and no `host`
key. -/
theorem CreateSpdyHeadersFromHttpRequest_request_line {GURL : Type} (U : UrlFns GURL)
    (info : HttpRequestInfo GURL) (request_headers : HttpRequestHeaders)
    (headers : SpdyHeaderBlock) (protocol_version : Int) (direct : Bool) :
    ∃ block, block =
        CreateSpdyHeadersFromHttpRequest U info request_headers headers protocol_version direct ∧
      (protocol_version < 3 →
        SpdyHeaderBlock.find block "version".toList = some "HTTP/1.1".toList ∧
        SpdyHeaderBlock.find block "method".toList = some info.method ∧
        SpdyHeaderBlock.find block "host".toList = some (U.GetHostAndOptionalPort info.url) ∧
        SpdyHeaderBlock.find block "scheme".toList = some (U.scheme info.url) ∧
        (direct = true →
          SpdyHeaderBlock.find block "url".toList = some (U.PathForRequest info.url)) ∧
        (direct = false →
          SpdyHeaderBlock.find block "url".toList = some (U.SpecForRequest info.url))) ∧
      (3 ≤ protocol_version →
        SpdyHeaderBlock.find block ":version".toList = some "HTTP/1.1".toList ∧
        SpdyHeaderBlock.find block ":method".toList = some info.method ∧
        SpdyHeaderBlock.find block ":host".toList = some (U.GetHostAndOptionalPort info.url) ∧
        SpdyHeaderBlock.find block ":scheme".toList = some (U.scheme info.url) ∧
        SpdyHeaderBlock.find block ":path".toList = some (U.PathForRequest info.url) ∧
        "host".toList ∉ SpdyHeaderBlock.keys block) := by
  refine ⟨_, rfl, fun hp => ?_, fun hp => ?_⟩
  · have hfind := CreateSpdyHeadersFromHttpRequest_find_v2 U info request_headers headers
      protocol_version direct hp
    refine ⟨?_, ?_, ?_, ?_, ?_, ?_⟩
    · rw [hfind]; simp
    · rw [hfind]; simp
    · rw [hfind]; simp
    · rw [hfind]; simp
    · intro hd; rw [hfind]; simp [hd]
    · intro hd; rw [hfind]; simp [hd]
  · have hfind := CreateSpdyHeadersFromHttpRequest_find_v3 U info request_headers headers
      protocol_version direct hp
    refine ⟨?_, ?_, ?_, ?_, ?_, ?_⟩
    · rw [hfind]; simp
    · rw [hfind]; simp
    · rw [hfind]; simp
    · rw [hfind]; simp
    · rw [hfind]; simp
    · rw [SpdyHeaderBlock.not_mem_keys_iff, hfind]; simp

/-- C6. The string `GetUrlFromHeaderBlock` builds its `GURL` from: for a pushed
stream under `protocol_version == 2`, the value of the `url` header, empty if
there is none; otherwise scheme, `://`, host and path, read from `:scheme`,
`:host`, `:path` when `protocol_version >= 3` and from `scheme`, `host`, `url`
below that, and the empty string as soon as one of the three is absent or
empty. -/
theorem GetUrlFromHeaderBlock_string {GURL : Type} (U : UrlFns GURL)
    (headers : SpdyHeaderBlock) (protocol_version : Int) (pushed : Bool) :
    ∃ url, GetUrlFromHeaderBlock U headers protocol_version pushed = U.fromString url ∧
      (pushed = true ∧ protocol_version = 2 →
        url = (SpdyHeaderBlock.find headers "url".toList).getD []) ∧
      (¬ (pushed = true ∧ protocol_version = 2) → 3 ≤ protocol_version →
        url = (match SpdyHeaderBlock.find headers ":scheme".toList,
                SpdyHeaderBlock.find headers ":host".toList,
                SpdyHeaderBlock.find headers ":path".toList with
          | some scheme, some host_port, some path =>
            if scheme = [] ∨ host_port = [] ∨ path = [] then []
            else scheme ++ "://".toList ++ host_port ++ path
          | _, _, _ => [])) ∧
      (¬ (pushed = true ∧ protocol_version = 2) → protocol_version < 3 →
        url = (match SpdyHeaderBlock.find headers "scheme".toList,
                SpdyHeaderBlock.find headers "host".toList,
                SpdyHeaderBlock.find headers "url".toList with
          | some scheme, some host_port, some path =>
            if scheme = [] ∨ host_port = [] ∨ path = [] then []
            else scheme ++ "://".toList ++ host_port ++ path
          | _, _, _ => [])) := by
  refine ⟨GetUrlFromHeaderBlock_url headers protocol_version pushed, rfl, ?_, ?_, ?_⟩
  · intro hc
    unfold GetUrlFromHeaderBlock_url
    rw [if_pos hc]
    cases SpdyHeaderBlock.find headers "url".toList <;> rfl
  · intro hc hp
    unfold GetUrlFromHeaderBlock_url
    have hp2 : protocol_version ≥ 3 := hp
    rw [if_neg hc]
    simp only [hp2, if_true]
    cases SpdyHeaderBlock.find headers ":scheme".toList <;>
      cases SpdyHeaderBlock.find headers ":host".toList <;>
      cases SpdyHeaderBlock.find headers ":path".toList <;>
      simp [List.isEmpty_iff]
  · intro hc hp
    unfold GetUrlFromHeaderBlock_url
    have hp2 : ¬ protocol_version ≥ 3 := by omega
    rw [if_neg hc]
    simp only [hp2, if_false]
    cases SpdyHeaderBlock.find headers "scheme".toList <;>
      cases SpdyHeaderBlock.find headers "host".toList <;>
      cases SpdyHeaderBlock.find headers "url".toList <;>
      simp [List.isEmpty_iff]

end net

namespace net
namespace DiskCacheTestWithCache

/-- Issuing a call changes the trace only. -/
theorem call_proj (h : DiskCacheTestWithCache) (e : Event) :
    (h.call e).trace = h.trace ++ [e] ∧ (h.call e).cache_path_ = h.cache_path_ ∧
    (h.call e).cache_ = h.cache_ ∧ (h.call e).cache_impl_ = h.cache_impl_ ∧
    (h.call e).mem_cache_ = h.mem_cache_ ∧ (h.call e).mask_ = h.mask_ ∧
    (h.call e).size_ = h.size_ ∧ (h.call e).type_ = h.type_ ∧
    (h.call e).memory_only_ = h.memory_only_ ∧
    (h.call e).simple_cache_mode_ = h.simple_cache_mode_ ∧
    (h.call e).new_eviction_ = h.new_eviction_ ∧
    (h.call e).first_cleanup_ = h.first_cleanup_ ∧ (h.call e).integrity_ = h.integrity_ ∧
    (h.call e).use_current_thread_ = h.use_current_thread_ ∧
    (h.call e).cache_thread_running = h.cache_thread_running ∧
    (h.call e).next_id = h.next_id ∧ (h.call e).fatal_failures = h.fatal_failures ∧
    (h.call e).nonfatal_failures = h.nonfatal_failures :=
  ⟨rfl, rfl, rfl, rfl, rfl, rfl, rfl, rfl, rfl, rfl, rfl, rfl, rfl, rfl, rfl, rfl, rfl, rfl⟩

/-- A fatal failure changes the count of fatal failures only. -/
theorem addFatal_proj (h : DiskCacheTestWithCache) :
    h.addFatal.trace = h.trace ∧ h.addFatal.cache_path_ = h.cache_path_ ∧
    h.addFatal.cache_ = h.cache_ ∧ h.addFatal.cache_impl_ = h.cache_impl_ ∧
    h.addFatal.mem_cache_ = h.mem_cache_ ∧ h.addFatal.mask_ = h.mask_ ∧
    h.addFatal.size_ = h.size_ ∧ h.addFatal.type_ = h.type_ ∧
    h.addFatal.memory_only_ = h.memory_only_ ∧
    h.addFatal.simple_cache_mode_ = h.simple_cache_mode_ ∧
    h.addFatal.new_eviction_ = h.new_eviction_ ∧
    h.addFatal.first_cleanup_ = h.first_cleanup_ ∧ h.addFatal.integrity_ = h.integrity_ ∧
    h.addFatal.use_current_thread_ = h.use_current_thread_ ∧
    h.addFatal.cache_thread_running = h.cache_thread_running ∧
    h.addFatal.next_id = h.next_id ∧ h.addFatal.fatal_failures = h.fatal_failures + 1 ∧
    h.addFatal.nonfatal_failures = h.nonfatal_failures :=
  ⟨rfl, rfl, rfl, rfl, rfl, rfl, rfl, rfl, rfl, rfl, rfl, rfl, rfl, rfl, rfl, rfl, rfl, rfl⟩

/-- An expectation changes the count of non-fatal failures only, and only
when it fails. -/
theorem expectTrue_proj (h : DiskCacheTestWithCache) (c : Bool) :
    (h.expectTrue c).trace = h.trace ∧ (h.expectTrue c).cache_path_ = h.cache_path_ ∧
    (h.expectTrue c).cache_ = h.cache_ ∧ (h.expectTrue c).cache_impl_ = h.cache_impl_ ∧
    (h.expectTrue c).mem_cache_ = h.mem_cache_ ∧ (h.expectTrue c).mask_ = h.mask_ ∧
    (h.expectTrue c).size_ = h.size_ ∧ (h.expectTrue c).type_ = h.type_ ∧
    (h.expectTrue c).memory_only_ = h.memory_only_ ∧
    (h.expectTrue c).simple_cache_mode_ = h.simple_cache_mode_ ∧
    (h.expectTrue c).new_eviction_ = h.new_eviction_ ∧
    (h.expectTrue c).first_cleanup_ = h.first_cleanup_ ∧
    (h.expectTrue c).integrity_ = h.integrity_ ∧
    (h.expectTrue c).use_current_thread_ = h.use_current_thread_ ∧
    (h.expectTrue c).cache_thread_running = h.cache_thread_running ∧
    (h.expectTrue c).next_id = h.next_id ∧
    (h.expectTrue c).fatal_failures = h.fatal_failures ∧
    (h.expectTrue c).nonfatal_failures = h.nonfatal_failures + (if c then 0 else 1) := by
  cases c <;> exact ⟨rfl, rfl, rfl, rfl, rfl, rfl, rfl, rfl, rfl, rfl, rfl, rfl, rfl, rfl, rfl, rfl, rfl, rfl⟩

/-- What one run of `CreateBackend` does: it appends calls to the trace, the
first of which builds a backend on `cache_path_`; it never runs the Integrity
Checker; failures only grow; and when no fatal failure is recorded exactly one
backend was built, of the class picked by `simple_cache_mode_`, and `cache_`
points to it. -/
theorem CreateBackend_summary (env : Env) (flags : BackendFlags) (h : DiskCacheTestWithCache) :
    ∃ evs, (CreateBackend env flags h).trace = h.trace ++ evs ∧
      h.fatal_failures ≤ (CreateBackend env flags h).fatal_failures ∧
      h.nonfatal_failures ≤ (CreateBackend env flags h).nonfatal_failures ∧
      (CreateBackend env flags h).first_cleanup_ = h.first_cleanup_ ∧
      evs.head? = some (if h.simple_cache_mode_ then
          Event.SimpleCreateBackend h.next_id h.cache_path_ h.size_ h.type_ h.use_current_thread_
        else
          Event.NewBackendImpl h.next_id h.cache_path_
            (if h.mask_ ≠ 0 then some h.mask_ else none) h.use_current_thread_) ∧
      evs.filter Event.isIntegrityCheck = [] ∧
      (h.simple_cache_mode_ = false → evs.getLast? = some (Event.Init h.next_id)) ∧
      ((CreateBackend env flags h).fatal_failures = h.fatal_failures →
        evs.filterMap Event.constructs =
            [if h.simple_cache_mode_ then Variant.SimpleBackendImpl else Variant.BackendImpl] ∧
        (CreateBackend env flags h).cache_ =
          some ⟨if h.simple_cache_mode_ then Variant.SimpleBackendImpl else Variant.BackendImpl,
            h.next_id⟩) := by
  unfold CreateBackend
  by_cases hs : h.simple_cache_mode_ = true <;> by_cases hz : h.size_ = 0 <;>
    by_cases hn : h.new_eviction_ = true <;>
    simp only [hs, hz, hn, call_proj, addFatal_proj, expectTrue_proj, if_true, if_false, ne_eq,
      not_true_eq_false, not_false_eq_true, Option.isNone_some, Bool.false_eq_true] <;>
    split_ifs <;>
    simp [Event.constructs, Event.isIntegrityCheck, hs, call_proj, addFatal_proj, expectTrue_proj]


/-- What one run of `InitMemoryCache` does: it appends calls to the trace
without touching `first_cleanup_`; failures only grow; and when no fatal
failure is recorded exactly one backend was built, a `MemBackendImpl`, and
`cache_` points to it. -/
theorem InitMemoryCache_summary (env : Env) (h : DiskCacheTestWithCache) :
    ∃ evs, (InitMemoryCache env h).trace = h.trace ++ evs ∧
      h.fatal_failures ≤ (InitMemoryCache env h).fatal_failures ∧
      (InitMemoryCache env h).first_cleanup_ = h.first_cleanup_ ∧
      ((InitMemoryCache env h).fatal_failures = h.fatal_failures →
        evs.filterMap Event.constructs = [Variant.MemBackendImpl] ∧
        (InitMemoryCache env h).cache_ = some ⟨Variant.MemBackendImpl, h.next_id⟩) := by
  unfold InitMemoryCache
  by_cases hz : h.size_ = 0 <;>
    simp only [hz, call_proj, addFatal_proj, expectTrue_proj, if_true, if_false, ne_eq,
      not_true_eq_false, not_false_eq_true, Option.isNone_some, Bool.false_eq_true] <;>
    split_ifs <;>
    simp [Event.constructs, call_proj, addFatal_proj, expectTrue_proj]

/-- The two ways `InitDiskCache` ends: with a fatal failure before any backend
is built, or by running `CreateBackend(kNoRandom, &cache_thread_)`. -/
theorem InitDiskCache_cases (env : Env) (h : DiskCacheTestWithCache) :
    ∃ g, g.trace = h.trace ++ g.trace.drop h.trace.length ∧
      (g.trace.drop h.trace.length).filterMap Event.constructs = [] ∧
      g.fatal_failures = h.fatal_failures ∧ g.first_cleanup_ = h.first_cleanup_ ∧
      g.simple_cache_mode_ = h.simple_cache_mode_ ∧ g.next_id = h.next_id ∧
      (InitDiskCache env h = g.addFatal ∨ InitDiskCache env h = CreateBackend env .kNoRandom g) := by
  unfold InitDiskCache
  by_cases hf : h.first_cleanup_ = true <;> by_cases hr : h.cache_thread_running = true <;>
    simp only [hf, hr, if_true, if_false, true_and, false_and, Bool.false_eq_true,
      Bool.true_eq_false] <;>
    split_ifs <;>
    first
    | (refine ⟨_, ?_, ?_, ?_, ?_, ?_, ?_, Or.inl rfl⟩ <;>
        simp [call_proj, Event.constructs, hf])
    | (refine ⟨_, ?_, ?_, ?_, ?_, ?_, ?_, Or.inr rfl⟩ <;>
        simp [call_proj, Event.constructs, hf])

/-- What one run of `InitDiskCache` does: it appends calls to the trace without
touching `first_cleanup_`; failures only grow; and when no fatal failure is
recorded exactly one backend was built, of the class picked by
`simple_cache_mode_`, and `cache_` points to it. -/
theorem InitDiskCache_summary (env : Env) (h : DiskCacheTestWithCache) :
    ∃ evs, (InitDiskCache env h).trace = h.trace ++ evs ∧
      h.fatal_failures ≤ (InitDiskCache env h).fatal_failures ∧
      (InitDiskCache env h).first_cleanup_ = h.first_cleanup_ ∧
      ((InitDiskCache env h).fatal_failures = h.fatal_failures →
        evs.filterMap Event.constructs =
          [if h.simple_cache_mode_ then Variant.SimpleBackendImpl else Variant.BackendImpl] ∧
        (InitDiskCache env h).cache_ =
          some ⟨if h.simple_cache_mode_ then Variant.SimpleBackendImpl else Variant.BackendImpl,
            h.next_id⟩) := by
  obtain ⟨g, gt1, gt2, gf1, gf2, gf3, gf4, hcase⟩ := InitDiskCache_cases env h
  rcases hcase with hcase | hcase
  · rw [hcase]
    refine ⟨g.trace.drop h.trace.length, ?_, ?_, ?_, ?_⟩
    · simpa [addFatal_proj] using gt1
    · simp [addFatal_proj, gf1]
    · simp [addFatal_proj, gf2]
    · simp [addFatal_proj, gf1]
  · rw [hcase]
    obtain ⟨evs, h1, h2, _, h4, _, _, _, h8⟩ := CreateBackend_summary env .kNoRandom g
    refine ⟨g.trace.drop h.trace.length ++ evs, ?_, by omega, by rw [h4, gf2], ?_⟩
    · rw [h1, ← List.append_assoc, ← gt1]
    · intro hfat
      have := h8 (by omega)
      rw [gf3, gf4] at this
      simpa [List.filterMap_append, gt2] using this

/-- With collaborators that always succeed, `CreateBackend` records no fatal
failure. -/
theorem CreateBackend_allOk (flags : BackendFlags) (h : DiskCacheTestWithCache) :
    (CreateBackend allOkEnv flags h).fatal_failures = h.fatal_failures := by
  unfold CreateBackend
  by_cases hs : h.simple_cache_mode_ = true <;> by_cases hz : h.size_ = 0 <;>
    by_cases hn : h.new_eviction_ = true <;>
    simp only [hs, hz, hn, call_proj, addFatal_proj, expectTrue_proj, if_true, if_false, ne_eq,
      not_true_eq_false, not_false_eq_true, Option.isNone_some, Bool.false_eq_true] <;>
    simp [allOkEnv, OK, call_proj, addFatal_proj, expectTrue_proj]

/-- With collaborators that always succeed, `InitMemoryCache` records no fatal
failure. -/
theorem InitMemoryCache_allOk (h : DiskCacheTestWithCache) :
    (InitMemoryCache allOkEnv h).fatal_failures = h.fatal_failures := by
  unfold InitMemoryCache
  by_cases hz : h.size_ = 0 <;>
    simp only [hz, call_proj, addFatal_proj, expectTrue_proj, if_true, if_false, ne_eq,
      not_true_eq_false, not_false_eq_true, Option.isNone_some, Bool.false_eq_true] <;>
    simp [allOkEnv, call_proj, addFatal_proj, expectTrue_proj]

/-- With collaborators that always succeed, `InitDiskCache` records no fatal
failure. -/
theorem InitDiskCache_allOk (h : DiskCacheTestWithCache) :
    (InitDiskCache allOkEnv h).fatal_failures = h.fatal_failures := by
  unfold InitDiskCache
  by_cases hf : h.first_cleanup_ = true <;> by_cases hr : h.cache_thread_running = true <;>
    simp only [hf, hr, if_true, if_false, true_and, false_and, Bool.false_eq_true,
      Bool.true_eq_false] <;>
    simp [allOkEnv, call_proj, hf, hr] <;>
    (rw [show ({ boolResult := fun _ => true, intResult := fun _ => 0 } : Env) = allOkEnv from rfl,
      CreateBackend_allOk]) <;>
    simp [call_proj]

/-- With collaborators that always succeed, `InitCache` records no fatal
failure, whatever the flags of the harness: a successful run exists for every
setting of `memory_only_` and `simple_cache_mode_`. -/
theorem InitCache_allOk (h : DiskCacheTestWithCache) :
    (InitCache allOkEnv h).fatal_failures = h.fatal_failures := by
  have key : ∃ g, g = (if h.memory_only_ then InitMemoryCache allOkEnv h
        else InitDiskCache allOkEnv h) ∧
      g.fatal_failures = h.fatal_failures ∧ ∃ p, g.cache_ = some p := by
    by_cases hm : h.memory_only_ = true
    · obtain ⟨evs, _, _, _, h4⟩ := InitMemoryCache_summary allOkEnv h
      have hf := InitMemoryCache_allOk h
      exact ⟨_, rfl, by simpa [hm] using hf, by simpa [hm] using ⟨_, (h4 hf).2⟩⟩
    · obtain ⟨evs, _, _, _, h4⟩ := InitDiskCache_summary allOkEnv h
      have hf := InitDiskCache_allOk h
      exact ⟨_, rfl, by simpa [hm] using hf, by simpa [hm] using ⟨_, (h4 hf).2⟩⟩
  obtain ⟨g, hg, gf, p, gc⟩ := key
  have hI : InitCache allOkEnv h =
      (match g.cache_ with
        | none => g.addFatal
        | some cache =>
          if g.first_cleanup_ then
            (if allOkEnv.intResult (g.call (.GetEntryCount cache.id)).trace ≠ 0 then
              (g.call (.GetEntryCount cache.id)).addFatal
             else g.call (.GetEntryCount cache.id))
          else g) := by
    subst hg; rfl
  rw [hI, gc]
  simp only
  by_cases hfc : g.first_cleanup_ = true
  · rw [if_pos hfc]
    have : ¬ allOkEnv.intResult (g.call (.GetEntryCount p.id)).trace ≠ 0 := by
      simp [allOkEnv]
    rw [if_neg this]
    simp [call_proj, gf]
  · rw [if_neg hfc]
    exact gf

/-- C7. For every setting of `memory_only_` and `simple_cache_mode_` (and of
everything else in the harness), a run of `InitCache` that records no fatal
failure builds exactly one backend and leaves `cache_` pointing to it: a
`MemBackendImpl` when `memory_only_` is set, otherwise a `SimpleBackendImpl`
when `simple_cache_mode_` is set, otherwise a `BackendImpl`; the disk-backed
`BackendImpl` is built exactly when neither flag is set. -/
theorem InitCache_builds_one_variant (env : Env) (h : DiskCacheTestWithCache)
    (hok : (InitCache env h).fatal_failures = h.fatal_failures) :
    ∃ evs, (InitCache env h).trace = h.trace ++ evs ∧
      evs.filterMap Event.constructs =
        [if h.memory_only_ then Variant.MemBackendImpl
         else if h.simple_cache_mode_ then Variant.SimpleBackendImpl
         else Variant.BackendImpl] ∧
      (InitCache env h).cache_ =
        some ⟨if h.memory_only_ then Variant.MemBackendImpl
          else if h.simple_cache_mode_ then Variant.SimpleBackendImpl
          else Variant.BackendImpl, h.next_id⟩ ∧
      ((if h.memory_only_ then Variant.MemBackendImpl
          else if h.simple_cache_mode_ then Variant.SimpleBackendImpl
          else Variant.BackendImpl) = Variant.BackendImpl ↔
        h.memory_only_ = false ∧ h.simple_cache_mode_ = false) := by
  have hv : ∃ v, v = (if h.memory_only_ then Variant.MemBackendImpl
           else if h.simple_cache_mode_ then Variant.SimpleBackendImpl
           else Variant.BackendImpl) ∧
      (v = Variant.BackendImpl ↔ h.memory_only_ = false ∧ h.simple_cache_mode_ = false) := by
    refine ⟨_, rfl, ?_⟩
    cases h.memory_only_ <;> cases h.simple_cache_mode_ <;> simp
  obtain ⟨v, hv1, hv2⟩ := hv
  rw [← hv1]
  have key : ∃ g evs, g = (if h.memory_only_ then InitMemoryCache env h else InitDiskCache env h) ∧
      g.trace = h.trace ++ evs ∧ h.fatal_failures ≤ g.fatal_failures ∧
      (g.fatal_failures = h.fatal_failures →
        evs.filterMap Event.constructs = [v] ∧ g.cache_ = some ⟨v, h.next_id⟩) := by
    by_cases hm : h.memory_only_ = true
    · obtain ⟨evs, h1, h2, _, h4⟩ := InitMemoryCache_summary env h
      simp only [hm, if_true] at hv1
      exact ⟨_, evs, rfl, by simpa [hm] using h1, by simpa [hm] using h2,
        by simpa [hm, hv1] using h4⟩
    · obtain ⟨evs, h1, h2, _, h4⟩ := InitDiskCache_summary env h
      simp only [hm, if_false, Bool.false_eq_true] at hv1
      rw [← hv1] at h4
      exact ⟨_, evs, rfl, by simpa [hm] using h1, by simpa [hm] using h2,
        by simpa [hm] using h4⟩
  obtain ⟨g, evs, hg, gt, gf, gs⟩ := key
  have hI : InitCache env h =
      (match g.cache_ with
        | none => g.addFatal
        | some cache =>
          if g.first_cleanup_ then
            (if env.intResult (g.call (.GetEntryCount cache.id)).trace ≠ 0 then
              (g.call (.GetEntryCount cache.id)).addFatal
             else g.call (.GetEntryCount cache.id))
          else g) := by
    subst hg; rfl
  clear hg hv1
  rw [hI] at hok ⊢
  cases hc : g.cache_ with
  | none =>
    rw [hc] at hok
    simp only [addFatal_proj] at hok
    omega
  | some cache =>
    rw [hc] at hok
    simp only at hok ⊢
    by_cases hfc : g.first_cleanup_ = true
    · rw [if_pos hfc] at hok ⊢
      by_cases hcount : env.intResult (g.call (.GetEntryCount cache.id)).trace ≠ 0
      · rw [if_pos hcount] at hok
        simp only [addFatal_proj, call_proj] at hok
        omega
      · rw [if_neg hcount] at hok ⊢
        simp only [call_proj] at hok
        obtain ⟨e1, e2⟩ := gs hok
        refine ⟨evs ++ [Event.GetEntryCount cache.id], ?_, ?_, ?_, hv2⟩
        · simp [call_proj, gt]
        · simp [List.filterMap_append, e1, Event.constructs]
        · simp only [call_proj]; rw [← e2, hc]
    · rw [if_neg hfc] at hok ⊢
      obtain ⟨e1, e2⟩ := gs hok
      exact ⟨evs, gt, e1, by rw [← e2, hc], hv2⟩

/-- C7, at concrete inputs. With collaborators that always succeed, `InitCache`
records no fatal failure on any harness, so the theorem applies to every
setting of the flags. On the default harness it builds one `BackendImpl`, on
the memory-only harness one `MemBackendImpl`, on the simple-cache harness one
`SimpleBackendImpl`, and with both flags set one `MemBackendImpl`; each time
`cache_` points to the object built, object 0. -/
theorem InitCache_builds_one_variant_witness :
    (∀ h : DiskCacheTestWithCache,
      (InitCache allOkEnv h).fatal_failures = h.fatal_failures ∧
      ∃ evs, (InitCache allOkEnv h).trace = h.trace ++ evs ∧
        evs.filterMap Event.constructs =
          [if h.memory_only_ then Variant.MemBackendImpl
           else if h.simple_cache_mode_ then Variant.SimpleBackendImpl
           else Variant.BackendImpl] ∧
        (InitCache allOkEnv h).cache_ =
          some ⟨if h.memory_only_ then Variant.MemBackendImpl
            else if h.simple_cache_mode_ then Variant.SimpleBackendImpl
            else Variant.BackendImpl, h.next_id⟩) ∧
    ((InitCache allOkEnv (new "cache")).fatal_failures = (new "cache").fatal_failures ∧
      ∃ evs, (InitCache allOkEnv (new "cache")).trace = [] ++ evs ∧
        evs.filterMap Event.constructs = [Variant.BackendImpl] ∧
        (InitCache allOkEnv (new "cache")).cache_ = some ⟨Variant.BackendImpl, 0⟩ ∧
        (Variant.BackendImpl = Variant.BackendImpl ↔ false = false ∧ false = false)) ∧
    ((InitCache allOkEnv memoryOnlyHarness).fatal_failures = memoryOnlyHarness.fatal_failures ∧
      ∃ evs, (InitCache allOkEnv memoryOnlyHarness).trace = [] ++ evs ∧
        evs.filterMap Event.constructs = [Variant.MemBackendImpl] ∧
        (InitCache allOkEnv memoryOnlyHarness).cache_ = some ⟨Variant.MemBackendImpl, 0⟩ ∧
        (Variant.MemBackendImpl = Variant.BackendImpl ↔ true = false ∧ false = false)) ∧
    ((InitCache allOkEnv simpleCacheHarness).fatal_failures = simpleCacheHarness.fatal_failures ∧
      ∃ evs, (InitCache allOkEnv simpleCacheHarness).trace = [] ++ evs ∧
        evs.filterMap Event.constructs = [Variant.SimpleBackendImpl] ∧
        (InitCache allOkEnv simpleCacheHarness).cache_ = some ⟨Variant.SimpleBackendImpl, 0⟩ ∧
        (Variant.SimpleBackendImpl = Variant.BackendImpl ↔ false = false ∧ true = false)) ∧
    ((InitCache allOkEnv memoryOnlySimpleHarness).fatal_failures =
        memoryOnlySimpleHarness.fatal_failures ∧
      ∃ evs, (InitCache allOkEnv memoryOnlySimpleHarness).trace = [] ++ evs ∧
        evs.filterMap Event.constructs = [Variant.MemBackendImpl] ∧
        (InitCache allOkEnv memoryOnlySimpleHarness).cache_ =
          some ⟨Variant.MemBackendImpl, 0⟩ ∧
        (Variant.MemBackendImpl = Variant.BackendImpl ↔ true = false ∧ true = false)) :=
  ⟨fun h =>
      ⟨InitCache_allOk h,
        let ⟨evs, e1, e2, e3, _⟩ := InitCache_builds_one_variant allOkEnv h (InitCache_allOk h)
        ⟨evs, e1, e2, e3⟩⟩,
    ⟨by decide, InitCache_builds_one_variant allOkEnv (new "cache") (by decide)⟩,
    ⟨by decide, InitCache_builds_one_variant allOkEnv memoryOnlyHarness (by decide)⟩,
    ⟨by decide, InitCache_builds_one_variant allOkEnv simpleCacheHarness (by decide)⟩,
    ⟨by decide, InitCache_builds_one_variant allOkEnv memoryOnlySimpleHarness (by decide)⟩⟩

/-- C1, as stated, fails. On `crashHarness` (not memory-only, disk backend 0
on the directory `cache`) with collaborators whose Integrity Checker answers
`false`, `SimulateCrash` flushes, clears the reference counts, deletes the
backend, runs the checker, which fails, and all the same builds backend 1 on
the same directory and calls its `Init`: a backend is opened on a directory
the checker has not passed. -/
theorem SimulateCrash_reopens_after_failed_check :
    crashHarness.memory_only_ = false ∧
    failingCheckEnv.boolResult
      [Event.FlushQueueForTest 0, Event.ClearRefCountForTest 0, Event.Delete 0,
        Event.CheckCacheIntegrity "cache" false 0] = false ∧
    (SimulateCrash failingCheckEnv crashHarness).map (fun h => h.trace) =
      some [Event.FlushQueueForTest 0, Event.ClearRefCountForTest 0, Event.Delete 0,
        Event.CheckCacheIntegrity "cache" false 0,
        Event.NewBackendImpl 1 "cache" none false,
        Event.SetType 1 CacheType.DISK_CACHE, Event.SetFlags 1 BackendFlags.kNoRandom,
        Event.Init 1] ∧
    (SimulateCrash failingCheckEnv crashHarness).map (fun h => h.nonfatal_failures) = some 1 := by
  decide

/-- C1, amended. On a harness that is not memory-only and has a disk backend
`impl`, `SimulateCrash` first flushes the backend's queue. If the flush does
not report `net::OK` the run ends there with a fatal failure. Otherwise it
discards the reference counts, deletes the backend, runs the Integrity Checker
on `cache_path_`, and then, whatever the checker answered, reopens a backend
on the same `cache_path_`: the first reopening call builds the backend, the
last one is its `Init` when the backend is a `BackendImpl`, and the checker is
not run again. A failed check is recorded as a non-fatal failure. -/
theorem SimulateCrash_order (env : Env) (h : DiskCacheTestWithCache) (impl : Nat)
    (hm : h.memory_only_ = false) (hi : h.cache_impl_ = some impl) :
    (env.intResult (h.trace ++ [Event.FlushQueueForTest impl]) ≠ OK →
      SimulateCrash env h =
        some { h with trace := h.trace ++ [Event.FlushQueueForTest impl],
                      fatal_failures := h.fatal_failures + 1 }) ∧
    (env.intResult (h.trace ++ [Event.FlushQueueForTest impl]) = OK →
      ∃ h' reopen, SimulateCrash env h = some h' ∧
        h'.trace = h.trace ++
          [Event.FlushQueueForTest impl, Event.ClearRefCountForTest impl, Event.Delete impl,
            Event.CheckCacheIntegrity h.cache_path_ h.new_eviction_ h.mask_] ++ reopen ∧
        reopen.head? = some (if h.simple_cache_mode_ then
            Event.SimpleCreateBackend h.next_id h.cache_path_ h.size_ h.type_
              h.use_current_thread_
          else
            Event.NewBackendImpl h.next_id h.cache_path_
              (if h.mask_ ≠ 0 then some h.mask_ else none) h.use_current_thread_) ∧
        reopen.filter Event.isIntegrityCheck = [] ∧
        (h.simple_cache_mode_ = false → reopen.getLast? = some (Event.Init h.next_id)) ∧
        h.nonfatal_failures +
            (if env.boolResult (h.trace ++
              [Event.FlushQueueForTest impl, Event.ClearRefCountForTest impl, Event.Delete impl,
                Event.CheckCacheIntegrity h.cache_path_ h.new_eviction_ h.mask_]) then 0 else 1)
          ≤ h'.nonfatal_failures) := by
  constructor
  · intro hflush
    have e : SimulateCrash env h = some (h.call (Event.FlushQueueForTest impl)).addFatal := by
      unfold SimulateCrash
      simp only [hm, hi, Bool.false_eq_true, if_false, call_proj]
      rw [if_pos hflush]
    rw [e]
    rfl
  · intro hflush
    unfold SimulateCrash
    simp only [hm, hi, Bool.false_eq_true, if_false, call_proj]
    rw [if_neg (not_not.mpr hflush)]
    generalize hg : DiskCacheTestWithCache.expectTrue _ _ = g
    obtain ⟨evs, h1, _, h3, _, h5, h6, h7, _⟩ := CreateBackend_summary env .kNoRandom g
    have gp : g.trace = h.trace ++
          [Event.FlushQueueForTest impl, Event.ClearRefCountForTest impl, Event.Delete impl,
            Event.CheckCacheIntegrity h.cache_path_ h.new_eviction_ h.mask_] ∧
        g.simple_cache_mode_ = h.simple_cache_mode_ ∧ g.next_id = h.next_id ∧
        g.cache_path_ = h.cache_path_ ∧ g.size_ = h.size_ ∧ g.type_ = h.type_ ∧
        g.use_current_thread_ = h.use_current_thread_ ∧ g.mask_ = h.mask_ ∧
        g.nonfatal_failures = h.nonfatal_failures +
            (if env.boolResult (h.trace ++
              [Event.FlushQueueForTest impl, Event.ClearRefCountForTest impl, Event.Delete impl,
                Event.CheckCacheIntegrity h.cache_path_ h.new_eviction_ h.mask_]) then 0 else 1) := by
      subst hg
      simp [call_proj, expectTrue_proj]
    obtain ⟨g1, g2, g3, g4, g5, g6, g7, g8, g9⟩ := gp
    rw [g2, g3, g4, g5, g6, g7, g8] at h5
    rw [g2, g3] at h7
    exact ⟨_, evs, rfl, by rw [h1, g1], h5, h6, h7, by omega⟩

/-- C1 amended, at a concrete input: `crashHarness` with collaborators that
always succeed. -/
theorem SimulateCrash_order_witness :
    crashHarness.memory_only_ = false ∧ crashHarness.cache_impl_ = some 0 ∧
    ∃ h', SimulateCrash allOkEnv crashHarness = some h' ∧
      h'.trace.take 5 =
        [Event.FlushQueueForTest 0, Event.ClearRefCountForTest 0, Event.Delete 0,
          Event.CheckCacheIntegrity "cache" false 0, Event.NewBackendImpl 1 "cache" none false] := by
  refine ⟨rfl, rfl, ?_⟩
  obtain ⟨h', reopen, e1, e2, e3, _⟩ :=
    (SimulateCrash_order allOkEnv crashHarness 0 rfl rfl).2 rfl
  refine ⟨h', e1, ?_⟩
  rw [e2]
  cases reopen with
  | nil => simp at e3
  | cons e rest =>
    simp only [List.head?_cons, Option.some.injEq] at e3
    subst e3
    rfl

/-- C10. `TearDown` runs the Integrity Checker exactly when the harness is not
memory-only and `integrity_` is set, then once and on `cache_path_`; on a
memory-only harness neither `TearDown` nor `SimulateCrash`, which stops at its
first assertion, runs it. -/
theorem TearDown_integrity_check (env : Env) (h : DiskCacheTestWithCache) :
    (∃ evs, (TearDown env h).trace = h.trace ++ evs ∧
      evs.filter Event.isIntegrityCheck =
        (if h.memory_only_ = false ∧ h.integrity_ = true then
          [Event.CheckCacheIntegrity h.cache_path_ h.new_eviction_ h.mask_]
        else [])) ∧
    (h.memory_only_ = true →
      (∃ evs, (TearDown env h).trace = h.trace ++ evs ∧
        evs.filter Event.isIntegrityCheck = []) ∧
      SimulateCrash env h = some { h with fatal_failures := h.fatal_failures + 1 }) := by
  have main : ∃ evs, (TearDown env h).trace = h.trace ++ evs ∧
      evs.filter Event.isIntegrityCheck =
        (if h.memory_only_ = false ∧ h.integrity_ = true then
          [Event.CheckCacheIntegrity h.cache_path_ h.new_eviction_ h.mask_]
        else []) := by
    unfold TearDown
    cases hc : h.cache_ <;> cases hr : h.cache_thread_running <;>
      cases hm : h.memory_only_ <;> cases hi : h.integrity_ <;>
      simp [call_proj, expectTrue_proj, hc, hr, hm, hi, Event.isIntegrityCheck]
  refine ⟨main, fun hm => ⟨?_, ?_⟩⟩
  · obtain ⟨evs, e1, e2⟩ := main
    exact ⟨evs, e1, by simpa [hm] using e2⟩
  · unfold SimulateCrash
    simp [hm, addFatal]

end DiskCacheTestWithCache
end net

namespace net
namespace DiskCacheTestWithCache

/-- C8. On a backend where `key` has no live entry, `CreateEntry(key)` succeeds
and hands out an entry; writing the buffer `b` to stream 0 of that entry at
offset 0 with length `|b|` reports `|b|` bytes written, whatever the truncate
flag; and reading `|b|` bytes of stream 0 at offset 0 then reports `|b|` bytes
read, and those bytes are `b`. -/
theorem CreateEntry_WriteData_ReadData (cache : Backend) (key b : Str) (truncate : Bool)
    (hfree : cache.live key = false) :
    ∃ entry cache1 cache2,
      CreateEntry cache key = (OK, some entry, cache1) ∧
      WriteData cache1 entry 0 0 b b.length truncate = ((b.length : Int), cache2) ∧
      ReadData cache2 entry 0 0 b.length = ((b.length : Int), b) := by
  have hget : (cache.entries ++
      [({ key := key, streams := [[], [], []], doomed := false } : Entry)]).get?
        cache.entries.length =
      some { key := key, streams := [[], [], []], doomed := false } := by
    simp
  have hw : (({ key := key, streams := [[], [], []], doomed := false } : Entry).Write 0 0
      (b.take b.length) truncate) = { key := key, streams := [b, [], []], doomed := false } := by
    cases truncate <;> simp [Entry.Write]
  refine ⟨cache.entries.length,
    Backend.mk (cache.entries ++ [Entry.mk key [[], [], []] false]),
    Backend.mk ((cache.entries ++ [Entry.mk key [[], [], []] false]).set cache.entries.length
      (Entry.mk key [b, [], []] false)), ?_, ?_, ?_⟩
  · simp [CreateEntry, Backend.CreateEntry, hfree]
  · unfold WriteData Backend.WriteData
    simp only [hget, hw]
    simp
  · unfold ReadData Backend.ReadData
    have hget2 : ((cache.entries ++
        [({ key := key, streams := [[], [], []], doomed := false } : Entry)]).set
          cache.entries.length { key := key, streams := [b, [], []], doomed := false }).get?
            cache.entries.length =
        some { key := key, streams := [b, [], []], doomed := false } := by
      simp
    simp only [hget2]
    simp [Entry.Read]

/-- C8, at a concrete input: the key `k` and the buffer `hello` on an empty
backend. -/
theorem CreateEntry_WriteData_ReadData_witness :
    (Backend.mk []).live "k".toList = false ∧
    ∃ entry cache1 cache2,
      CreateEntry (Backend.mk []) "k".toList = (OK, some entry, cache1) ∧
      WriteData cache1 entry 0 0 "hello".toList 5 false = (5, cache2) ∧
      ReadData cache2 entry 0 0 5 = (5, "hello".toList) :=
  ⟨by decide, CreateEntry_WriteData_ReadData (Backend.mk []) "k".toList "hello".toList false
    (by decide)⟩

end DiskCacheTestWithCache
end net

namespace net

/-! ## Round trip of multi-valued headers -/

/-- Two strings that start with a NUL-free piece followed by a NUL byte agree
only if the pieces agree and the rests agree. -/
theorem piece_cancel (v w a b : Str) (hv : NUL ∉ v) (hw : NUL ∉ w)
    (h : v ++ NUL :: a = w ++ NUL :: b) : v = w ∧ a = b := by
  induction v generalizing w with
  | nil =>
    cases w with
    | nil => simpa using h
    | cons d w =>
      simp only [List.nil_append, List.cons_append, List.cons.injEq] at h
      exact absurd h.1 (fun e => hw (by simp [e]))
  | cons c v ih =>
    cases w with
    | nil =>
      simp only [List.nil_append, List.cons_append, List.cons.injEq] at h
      exact absurd h.1.symm (fun e => hv (by simp [e]))
    | cons d w =>
      simp only [List.cons_append, List.cons.injEq] at h
      have hv2 : NUL ∉ v := fun m => hv (List.mem_cons_of_mem _ m)
      have hw2 : NUL ∉ w := fun m => hw (List.mem_cons_of_mem _ m)
      obtain ⟨e1, e2⟩ := ih w hv2 hw2 h.2
      exact ⟨by rw [h.1, e1], e2⟩

/-- The lines written for a list of NUL-free pieces determine the list: two
lists of NUL-free pieces with the same lines under the same name are equal. -/
theorem lines_injective (written : Str) (vs : List Str) :
    ∀ ws : List Str, (∀ v ∈ vs, NUL ∉ v) → (∀ w ∈ ws, NUL ∉ w) →
      ws.flatMap (fun v => written ++ ':' :: (v ++ [NUL])) =
        vs.flatMap (fun v => written ++ ':' :: (v ++ [NUL])) → ws = vs := by
  induction vs with
  | nil =>
    intro ws _ _ h
    cases ws with
    | nil => rfl
    | cons w ws =>
      have := congrArg List.length h
      simp at this
  | cons v vs ih =>
    intro ws hv hw h
    cases ws with
    | nil =>
      have := congrArg List.length h
      simp at this
      omega
    | cons w ws =>
      simp only [List.flatMap_cons, List.append_assoc, List.cons_append] at h
      have h1 := List.append_cancel_left h
      simp only [List.cons.injEq, true_and] at h1
      have h2 : w ++ NUL :: ws.flatMap (fun v => written ++ ':' :: (v ++ [NUL])) =
          v ++ NUL :: vs.flatMap (fun v => written ++ ':' :: (v ++ [NUL])) := by
        simpa using h1
      obtain ⟨e1, e2⟩ := piece_cancel w v _ _ (hw w (List.mem_cons_self _ _))
        (hv v (List.mem_cons_self _ _)) h2
      rw [e1, ih ws (fun x hx => hv x (List.mem_cons_of_mem _ hx))
        (fun x hx => hw x (List.mem_cons_of_mem _ hx)) e2]

/-- C12. Let the request headers whose lowercased name is `key` carry, in
request order, the non-empty list of NUL-free values `vs`, where `key` is none
of the dropped names and none of the request-line keys of the protocol
version. Then the value `CreateSpdyHeadersFromHttpRequest` stores under `key`
in an empty block is the NUL-join of `vs` (it is stored unless
`protocol_version >= 3` and `key` is `host`, which is erased); the value loop
of `SpdyHeadersToHttpResponse`, run on that value under any name and version,
writes one line per value of `vs`, in order, empty values included, and no
other list of NUL-free values gives these lines; and the value loop ends
within its `value.size() + 1` iterations on every value. -/
theorem header_values_round_trip {GURL : Type} (U : UrlFns GURL)
    (info : HttpRequestInfo GURL) (request_headers : HttpRequestHeaders)
    (protocol_version : Int) (direct : Bool) (key : Str) (vs : List Str)
    (hvs : vs ≠ []) (hnul : ∀ v ∈ vs, NUL ∉ v)
    (hsent : (request_headers.filter
      (fun nv => decide (StringToLowerASCII nv.1 = key))).map Prod.snd = vs)
    (hdrop : ¬ (key = "connection".toList ∨ key = "proxy-connection".toList ∨
      key = "transfer-encoding".toList))
    (hres : key ∉ (if protocol_version < 3 then
        ["version".toList, "method".toList, "host".toList, "scheme".toList, "url".toList]
      else
        [":version".toList, ":method".toList, ":host".toList, ":scheme".toList,
          ":path".toList])) :
    (∀ stored, SpdyHeaderBlock.find
        (CreateSpdyHeadersFromHttpRequest U info request_headers [] protocol_version direct)
        key = some stored → stored = [NUL].intercalate vs) ∧
    (protocol_version < 3 ∨ key ≠ "host".toList →
      SpdyHeaderBlock.find
        (CreateSpdyHeadersFromHttpRequest U info request_headers [] protocol_version direct)
        key = some ([NUL].intercalate vs)) ∧
    (∀ (version : Int) (name raw : Str),
      valueLoop version name ([NUL].intercalate vs) (([NUL].intercalate vs).length + 1) 0 raw =
        some (raw ++ vs.flatMap (fun v =>
          (if 3 ≤ version ∧ name.head? = some ':' then name.tail else name) ++
            ':' :: (v ++ [NUL])))) ∧
    (∀ (written : Str) (ws : List Str), (∀ w ∈ ws, NUL ∉ w) →
      ws.flatMap (fun v => written ++ ':' :: (v ++ [NUL])) =
        vs.flatMap (fun v => written ++ ':' :: (v ++ [NUL])) → ws = vs) ∧
    (∀ (version : Int) (name value raw : Str),
      ∃ out, valueLoop version name value (value.length + 1) 0 raw = some out) := by
  have hloop : SpdyHeaderBlock.find (requestHeaderLoop request_headers []) key =
      some ([NUL].intercalate vs) := by
    rw [(requestHeaderLoop_find request_headers [] key).2 hdrop]
    simp only [SpdyHeaderBlock.find, hsent]
    rw [if_neg hvs]
  have hstored : SpdyHeaderBlock.find
        (CreateSpdyHeadersFromHttpRequest U info request_headers [] protocol_version direct)
        key = if 3 ≤ protocol_version ∧ key = "host".toList then none
          else some ([NUL].intercalate vs) := by
    by_cases hp : protocol_version < 3
    · rw [if_pos hp] at hres
      simp only [List.mem_cons, List.mem_singleton, List.not_mem_nil, or_false, not_or] at hres
      obtain ⟨r1, r2, r3, r4, r5⟩ := hres
      have hn : ¬ (3 ≤ protocol_version ∧ key = "host".toList) := fun h => r3 h.2
      rw [CreateSpdyHeadersFromHttpRequest_find_v2 U info request_headers [] protocol_version
        direct hp, if_neg r5, if_neg r4, if_neg r3, if_neg r2, if_neg r1, hloop, if_neg hn]
    · have hp3 : 3 ≤ protocol_version := by omega
      rw [if_neg hp] at hres
      simp only [List.mem_cons, List.mem_singleton, List.not_mem_nil, or_false, not_or] at hres
      obtain ⟨r1, r2, r3, r4, r5⟩ := hres
      rw [CreateSpdyHeadersFromHttpRequest_find_v3 U info request_headers [] protocol_version
        direct hp3]
      by_cases hh : key = "host".toList
      · rw [if_pos hh, if_pos ⟨hp3, hh⟩]
      · have hn : ¬ (3 ≤ protocol_version ∧ key = "host".toList) := fun h => hh h.2
        rw [if_neg hh, if_neg r5, if_neg r4, if_neg r3, if_neg r2, if_neg r1, hloop, if_neg hn]
  refine ⟨?_, ?_, ?_, ?_, ?_⟩
  · intro stored hs
    rw [hstored] at hs
    split_ifs at hs
    exact (Option.some.inj hs).symm
  · intro hc
    rw [hstored]
    have hn : ¬ (3 ≤ protocol_version ∧ key = "host".toList) := by
      rintro ⟨h1, h2⟩
      rcases hc with h | h
      · omega
      · exact h h2
    rw [if_neg hn]
  · intro version name raw
    have h := valueLoop_pieces version name vs [] (([NUL].intercalate vs).length + 1) raw hvs hnul
      (by
        have := count_NUL_intercalate vs hvs hnul
        have := List.count_le_length NUL ([NUL].intercalate vs)
        omega)
    rw [written_name_eq] at h
    simpa using h
  · intro written ws hw h
    exact lines_injective written vs ws hnul hw h
  · intro version name value raw
    obtain ⟨lines, hl⟩ := valueLoop_total version name value
    exact ⟨_, hl raw⟩

/-- C12, at a concrete input: `Accept: a` and `accept: b` around a
`Connection` header, sent over SPDY/3, are stored as `a\0b` under `accept`. -/
theorem header_values_round_trip_witness :
    SpdyHeaderBlock.find
      (CreateSpdyHeadersFromHttpRequest stringUrlFns sampleRequest sampleRequestHeaders [] 3 true)
      "accept".toList = some "a\x00b".toList ∧
    valueLoop 3 "accept".toList "a\x00b".toList 4 0 [] =
      some "accept:a\x00accept:b\x00".toList := by
  have h := header_values_round_trip stringUrlFns sampleRequest sampleRequestHeaders 3 true
    "accept".toList ["a".toList, "b".toList] (by simp) (by decide) (by decide) (by decide)
    (by decide)
  refine ⟨?_, ?_⟩
  · have h2 := h.2.1 (Or.inr (by decide))
    rw [h2]
    decide
  · decide

/-! ## `ConvertRequestPriorityToSpdyPriority` -/

/-- C13. For a priority in range, `ConvertRequestPriorityToSpdyPriority`
returns the priority itself when `protocol_version != 2`; under
`protocol_version == 2` it returns `SPDY_PRIORITY_LOWEST - 1` for `LOWEST`,
`SPDY_PRIORITY_LOWEST` for `IDLE` and the priority itself otherwise, so that
the version-2 result lies between 0 and `SPDY_PRIORITY_LOWEST` and does not
decrease when the priority grows. -/
theorem ConvertRequestPriorityToSpdyPriority_values (priority protocol_version : Int)
    (hlo : HIGHEST ≤ priority) (hhi : priority < NUM_PRIORITIES) :
    (protocol_version ≠ 2 →
      ConvertRequestPriorityToSpdyPriority priority protocol_version = priority) ∧
    (priority = LOWEST →
      ConvertRequestPriorityToSpdyPriority priority 2 = SPDY_PRIORITY_LOWEST - 1) ∧
    (priority = IDLE →
      ConvertRequestPriorityToSpdyPriority priority 2 = SPDY_PRIORITY_LOWEST) ∧
    (priority ≠ LOWEST → priority ≠ IDLE →
      ConvertRequestPriorityToSpdyPriority priority 2 = priority) ∧
    (0 ≤ ConvertRequestPriorityToSpdyPriority priority 2 ∧
      ConvertRequestPriorityToSpdyPriority priority 2 ≤ SPDY_PRIORITY_LOWEST) ∧
    (∀ q : Int, HIGHEST ≤ q → q < NUM_PRIORITIES → priority ≤ q →
      ConvertRequestPriorityToSpdyPriority priority 2 ≤
        ConvertRequestPriorityToSpdyPriority q 2) := by
  unfold HIGHEST at hlo
  unfold NUM_PRIORITIES at hhi
  have hconv : ∀ p : Int, 0 ≤ p → p < 5 →
      ConvertRequestPriorityToSpdyPriority p 2 =
        if p = 3 then 2 else if p = 4 then 3 else p := by
    intro p h0 h5
    unfold ConvertRequestPriorityToSpdyPriority toSpdyPriority LOWEST IDLE SPDY_PRIORITY_LOWEST
    simp only [if_true]
    split_ifs <;> omega
  refine ⟨?_, ?_, ?_, ?_, ?_, ?_⟩
  · intro hv
    unfold ConvertRequestPriorityToSpdyPriority toSpdyPriority
    rw [if_neg hv]
    omega
  · intro hp
    rw [hconv priority hlo hhi]
    unfold LOWEST at hp
    unfold SPDY_PRIORITY_LOWEST
    rw [if_pos hp]
    rfl
  · intro hp
    rw [hconv priority hlo hhi]
    unfold IDLE at hp
    unfold SPDY_PRIORITY_LOWEST
    subst hp
    rfl
  · intro h3 h4
    rw [hconv priority hlo hhi]
    unfold LOWEST at h3
    unfold IDLE at h4
    rw [if_neg h3, if_neg h4]
  · rw [hconv priority hlo hhi]
    unfold SPDY_PRIORITY_LOWEST
    split_ifs <;> omega
  · intro q hq0 hq5 hle
    unfold HIGHEST at hq0
    unfold NUM_PRIORITIES at hq5
    rw [hconv priority hlo hhi, hconv q hq0 hq5]
    split_ifs <;> omega

/-- C13, at a concrete input: `LOWEST` under version 2 and under version 3. -/
theorem ConvertRequestPriorityToSpdyPriority_values_witness :
    ConvertRequestPriorityToSpdyPriority LOWEST 2 = 2 ∧
    ConvertRequestPriorityToSpdyPriority LOWEST 3 = 3 ∧
    ConvertRequestPriorityToSpdyPriority IDLE 2 = 3 := by
  have h := ConvertRequestPriorityToSpdyPriority_values LOWEST 3 (by decide) (by decide)
  have h2 := ConvertRequestPriorityToSpdyPriority_values LOWEST 2 (by decide) (by decide)
  exact ⟨h2.2.1 rfl, h.1 (by decide), by decide⟩

/-! ## Failure atomicity of `SpdyHeadersToHttpResponse` -/

/-- C14. `SpdyHeadersToHttpResponse` always returns. When it returns `false`
the response object is what it was before the call. When it returns `true`,
`was_fetched_via_spdy` is set and `headers` is built from a raw string that
starts with the value of the version key, one space, the value of the status
key and a NUL byte. -/
theorem SpdyHeadersToHttpResponse_atomic (now : Nat) (headers : SpdyHeaderBlock)
    (protocol_version : Int) (response : HttpResponseInfo) :
    ∃ b r, SpdyHeadersToHttpResponse now headers protocol_version response = some (b, r) ∧
      (b = false → r = response) ∧
      (b = true → r.was_fetched_via_spdy = true ∧
        ∃ status version rest,
          SpdyHeaderBlock.find headers
            (if 3 ≤ protocol_version then ":status".toList else "status".toList) = some status ∧
          SpdyHeaderBlock.find headers
            (if 3 ≤ protocol_version then ":version".toList else "version".toList) =
              some version ∧
          r.headers = some (version ++ ' ' :: (status ++ NUL :: rest))) := by
  unfold SpdyHeadersToHttpResponse
  have hge : (protocol_version ≥ 3) = (3 ≤ protocol_version) := rfl
  simp only [hge]
  cases hs : SpdyHeaderBlock.find headers
      (if 3 ≤ protocol_version then ":status".toList else "status".toList) with
  | none => exact ⟨false, response, rfl, fun _ => rfl, fun h => by simp at h⟩
  | some status =>
    cases hv : SpdyHeaderBlock.find headers
        (if 3 ≤ protocol_version then ":version".toList else "version".toList) with
    | none => exact ⟨false, response, rfl, fun _ => rfl, fun h => by simp at h⟩
    | some version =>
      obtain ⟨out, ho⟩ := responseHeaderLoop_total protocol_version headers
      simp only [ho]
      refine ⟨true, _, rfl, fun h => by simp at h, fun _ => ⟨rfl, status, version, out, rfl, rfl, ?_⟩⟩
      simp

end net

namespace net
namespace DiskCacheTestWithCache

/-- C11. On a harness that is memory-only or has no `BackendImpl`,
`RunTaskForTest(closure)` runs the closure itself, once: the one call it
issues is `closure.Run()`, nothing is handed to a backend worker and nothing
else in the harness changes; and `FlushQueueForTest()` issues no call and
changes nothing. -/
theorem RunTaskForTest_without_worker (env : Env) (closure : Nat) (h : DiskCacheTestWithCache)
    (hmem : h.memory_only_ = true ∨ h.cache_impl_ = none) :
    RunTaskForTest env closure h = { h with trace := h.trace ++ [Event.ClosureRun closure] } ∧
    (RunTaskForTest env closure h).trace.drop h.trace.length = [Event.ClosureRun closure] ∧
    FlushQueueForTest env h = h := by
  have hrun : RunTaskForTest env closure h = h.call (Event.ClosureRun closure) := by
    unfold RunTaskForTest
    rcases hmem with hm | hc
    · rw [if_pos hm]
    · by_cases hm : h.memory_only_ = true
      · rw [if_pos hm]
      · rw [if_neg hm, hc]
  have hflush : FlushQueueForTest env h = h := by
    unfold FlushQueueForTest
    rcases hmem with hm | hc
    · rw [if_pos hm]
    · by_cases hm : h.memory_only_ = true
      · rw [if_pos hm]
      · rw [if_neg hm, hc]
  refine ⟨?_, ?_, hflush⟩
  · rw [hrun]; rfl
  · rw [hrun]
    simp [call]

/-- C11, at a concrete input: the memory-only harness and closure 7. -/
theorem RunTaskForTest_without_worker_witness :
    (memoryOnlyHarness.memory_only_ = true ∨ memoryOnlyHarness.cache_impl_ = none) ∧
    (RunTaskForTest failingCheckEnv 7 memoryOnlyHarness).trace = [Event.ClosureRun 7] ∧
    FlushQueueForTest failingCheckEnv memoryOnlyHarness = memoryOnlyHarness := by
  have h := RunTaskForTest_without_worker failingCheckEnv 7 memoryOnlyHarness (Or.inl rfl)
  refine ⟨Or.inl rfl, ?_, h.2.2⟩
  rw [h.1]
  rfl

end DiskCacheTestWithCache
end net
